import Mathlib

set_option maxRecDepth 40000

/-!
Verification development for the event-generator pipeline.

Texts are modelled as `List Char` (the ASCII fragment relevant to the
program's markers and regular expressions).  Python string operations
(`str.find`, slicing, `str.strip`, `in`) and the concrete regular
expressions used by the code are translated into executable Lean
functions, and the extraction / persistence logic is translated on top of
them.  Effectful steps (model calls, database inserts, image searches)
are modelled by explicit outcome values fed to the translated control
flow, so that each function is a pure function of its inputs and the
world's responses.
-/

namespace EventGen

/-- ASCII fragment of Python's regex class `\w`: letters, digits, underscore. -/
def wordChar (c : Char) : Bool :=
  c.isAlpha || c.isDigit || c = '_'

/-- ASCII fragment of Python's regex class `\s` (also `str.isspace` on these). -/
def spaceChar (c : Char) : Bool :=
  c = ' ' || c = '\t' || c = '\n' || c = '\r' || c = Char.ofNat 11 || c = Char.ofNat 12

/-- Python `str.strip()`: drop leading and trailing whitespace. -/
def strip (s : List Char) : List Char :=
  ((s.dropWhile spaceChar).reverse.dropWhile spaceChar).reverse

/-- Python `haystack.find(needle)`: index of the leftmost occurrence, `none` when
absent (Python returns `-1` there; call sites are modelled on the option). -/
def findSub (hay needle : List Char) : Option Nat :=
  if needle.isPrefixOf hay then some 0
  else
    match hay with
    | [] => none
    | _ :: t => (findSub t needle).map (· + 1)

/-- Python `needle in haystack`. -/
def containsSub (hay needle : List Char) : Bool :=
  (findSub hay needle).isSome

/-- Python slice `s[a:b]` for non-negative bounds (empty when `b ≤ a`, clipped at
the end of the list). -/
def slice (s : List Char) (a b : Nat) : List Char :=
  (s.drop a).take (b - a)

/-- Python slice `s[a:]` for a non-negative bound. -/
def sliceFrom (s : List Char) (a : Nat) : List Char :=
  s.drop a

/-- Value of a non-empty digit run, as Python `int` of the matched group. -/
def digitsToNat (ds : List Char) : Nat :=
  ds.foldl (fun a c => a * 10 + (c.toNat - 48)) 0

/-- ASCII lower-casing, Python `str.lower()` on the ASCII fragment. -/
def toLowerL (s : List Char) : List Char :=
  s.map Char.toLower

/-- Split a text into its lines (separator `'\n'`, separators dropped). -/
def splitLinesAux (cur : List Char) : List Char → List (List Char)
  | [] => [cur.reverse]
  | c :: t => if c = '\n' then cur.reverse :: splitLinesAux [] t else splitLinesAux (c :: cur) t

/-- Lines of a text, used to express that `.` in a Python regex does not match `'\n'`. -/
def splitLines (s : List Char) : List (List Char) :=
  splitLinesAux [] s

/-- Prefix of a line through its last `'?'` (the line is assumed to contain one;
otherwise the result is empty). -/
def takeToLastQ (line : List Char) : List Char :=
  (line.reverse.dropWhile (fun c => !(c = '?'))).reverse

/-- Prefix of a line through its first `'?'` (the whole line when it has none). -/
def takeToFirstQ : List Char → List Char
  | [] => []
  | c :: t => if c = '?' then ['?'] else c :: takeToFirstQ t

/-- Python `re.search(r".*\?", s)`: `.` does not cross `'\n'` and `.*` is greedy,
so the leftmost match starts at the beginning of the first line containing `'?'`
and extends through the last `'?'` of that line; `group(0)` is that segment. -/
def searchQuestionGreedy (s : List Char) : Option (List Char) :=
  ((splitLines s).find? (fun L => L.contains '?')).map takeToLastQ

/-- Python `re.search(r".*?\?", s)`: same leftmost start as the greedy form, but
the lazy `.*?` stops at the first `'?'` of that line. -/
def searchQuestionLazy (s : List Char) : Option (List Char) :=
  ((splitLines s).find? (fun L => L.contains '?')).map takeToFirstQ

/-- Lines 137-140 of `question_generator.py` (and 262-265 of `sports_api.py`):
replace the question by the greedy `.*\?` match when one exists. -/
def fixQuestionGreedy (q : List Char) : List Char :=
  match searchQuestionGreedy q with
  | some m => m
  | none => q

/-- Lines 378-380 of `sports_api.py`: replace the question by the lazy `.*?\?`
match when one exists. -/
def fixQuestionLazy (q : List Char) : List Char :=
  match searchQuestionLazy q with
  | some m => m
  | none => q

/-- Anchored match of Python `key + r"\s*:\s*(\d+)"` at the head of `s`: the
key literal, optional whitespace, a colon, optional whitespace, then a maximal
non-empty digit run, whose value is returned. -/
def matchKeyNum (key s : List Char) : Option Nat :=
  if key.isPrefixOf s then
    match (s.drop key.length).dropWhile spaceChar with
    | ':' :: r =>
        let ds := (r.dropWhile spaceChar).takeWhile Char.isDigit
        if ds.isEmpty then none else some (digitsToNat ds)
    | _ => none
  else none

/-- Python `re.search(key + r"\s*:\s*(\d+)", s)`: value of the captured group of
the leftmost match. -/
def searchKeyNum (key s : List Char) : Option Nat :=
  match matchKeyNum key s with
  | some n => some n
  | none =>
      match s with
      | [] => none
      | _ :: t => searchKeyNum key t

/-- Tail of an option-pair match after the name blocks: Python `r":\s*(\d+)"`.
Returns the captured number and the remainder of the text after the match. -/
def matchOptionClose (s : List Char) : Option (Nat × List Char) :=
  match s with
  | ':' :: r =>
      let r2 := r.dropWhile spaceChar
      let ds := r2.takeWhile Char.isDigit
      if ds.isEmpty then none else some (digitsToNat ds, r2.drop ds.length)
  | _ => none

/-- Continuation of the name group `(?:\s[nc]+)*` followed by `r":\s*(\d+)"`,
where `nc` is the name character class.  The starred group is greedy: a further
`whitespace + block` extension is preferred, and the match falls back to closing
with the colon at the current point only when the extension cannot complete,
mirroring the regex engine's backtracking. -/
def matchOptionTail (nc : Char → Bool) (fuel : Nat) (s : List Char) :
    Option (List Char × Nat × List Char) :=
  match fuel with
  | 0 => none
  | fuel + 1 =>
      let close : Option (List Char × Nat × List Char) :=
        (matchOptionClose s).map (fun (n, rem) => ([], n, rem))
      match s with
      | c :: r1 =>
          if spaceChar c then
            let b := r1.takeWhile nc
            if b.isEmpty then close
            else
              match matchOptionTail nc fuel (r1.drop b.length) with
              | some (nm, n, rem) => some (c :: (b ++ nm), n, rem)
              | none => close
          else close
      | [] => close

/-- Anchored match of the option-pair pattern `([nc]+(?:\s[nc]+)*):\s*(\d+)` at
the head of `s`, returning the two captured groups (name, value) and the
remainder after the match. -/
def matchOption (nc : Char → Bool) (s : List Char) : Option (List Char × Nat × List Char) :=
  let b0 := s.takeWhile nc
  if b0.isEmpty then none
  else
    (matchOptionTail nc s.length (s.drop b0.length)).map
      (fun (nm, n, rem) => (b0 ++ nm, n, rem))

/-- Python `re.findall` with the option-pair pattern: scan left to right, emit
each non-overlapping match and resume after it.  Every step consumes at least
one character, so fuel `s.length + 1` is never exhausted. -/
def findAllOptionsAux (nc : Char → Bool) : Nat → List Char → List (List Char × Nat)
  | 0, _ => []
  | fuel + 1, s =>
      match matchOption nc s with
      | some (nm, n, rem) => (nm, n) :: findAllOptionsAux nc fuel rem
      | none =>
          match s with
          | [] => []
          | _ :: t => findAllOptionsAux nc fuel t

/-- Python `re.findall(pattern, s)` for the option-pair patterns. -/
def findAllOptions (nc : Char → Bool) (s : List Char) : List (List Char × Nat) :=
  findAllOptionsAux nc (s.length + 1) s

/-- Name class of the pattern on line 162 of `question_generator.py`: `[\w']`. -/
def nameChar (c : Char) : Bool :=
  wordChar c || c = Char.ofNat 39

/-- Name class of the pattern on line 395 of `sports_api.py`: `[\w''\-&]`. -/
def nameCharSports (c : Char) : Bool :=
  wordChar c || c = Char.ofNat 39 || c = '-' || c = '&'

/-- Marker `'Generated Question:'`. -/
def gqMarker : List Char := "Generated Question:".toList

/-- Marker `'Probability:'`. -/
def probMarker : List Char := "Probability:".toList

/-- Marker `'Market Resolution Date:'`. -/
def mrdMarker : List Char := "Market Resolution Date:".toList

/-- Marker `'Event Description:'`. -/
def edMarker : List Char := "Event Description:".toList

/-- Key `'Yes'` of the binary probability pattern. -/
def yesKey : List Char := "Yes".toList

/-- Key `'No'` of the binary probability pattern. -/
def noKey : List Char := "No".toList

/-- Probability value extracted by `generate_question`: either a binary
Yes/No percentage pair or a list of (option name, percentage) pairs. -/
inductive ProbVal where
  | binary (yes no : Nat)
  | multi (opts : List (List Char × Nat))
deriving DecidableEq

/-- Return value of `QuestionGeneratorService.generate_question`:
`(question, probability, probability_no folded into `prob`, end_date)`. -/
structure GQOut where
  question : Option (List Char)
  prob : Option ProbVal
  endDate : Option (List Char)
deriving DecidableEq

/-- Uniform `(None, None, None, None)` result of `generate_question`. -/
def GQOut.allNone : GQOut := ⟨none, none, none⟩

/-- Line 134 / 259 / 375: end of the question slice, `data.find('Probability:')
if 'Probability:' in data else len(data)`. -/
def questionEndIdx (data : List Char) : Nat :=
  match findSub data probMarker with
  | some i => i
  | none => data.length

/-- Lines 133-135 / 374-376: `data[start_index:end_index].strip()` where
`start_index` follows the `'Generated Question:'` marker. -/
def rawQuestion (data : List Char) : List Char :=
  strip (slice data (((findSub data gqMarker).getD 0) + gqMarker.length) (questionEndIdx data))

/-- Line 143: `data[data.find('Market Resolution Date:')+len(...):len(data)].strip()`. -/
def endDateGQ (data : List Char) : List Char :=
  strip (sliceFrom data (((findSub data mrdMarker).getD 0) + mrdMarker.length))

/-- Lines 148-149: probability section of `generate_question`, the stripped text
between the `'Probability:'` and `'Market Resolution Date:'` markers. -/
def probSectionGQ (data : List Char) : List Char :=
  strip (slice data (((findSub data probMarker).getD 0) + probMarker.length)
    ((findSub data mrdMarker).getD 0))

/-- Lines 162-164: extracted and stripped option pairs of `generate_question`. -/
def optionsGQ (data : List Char) : List (List Char × Nat) :=
  (findAllOptions nameChar (probSectionGQ data)).map (fun p => (strip p.1, p.2))

/-- Lines 131-172 of `question_generator.py`: the parsing step of one
`generate_question` attempt on the model response `data`.  The result is
`none` when both markers are not present (the attempt falls through to the
retry logging), and `some out` when the function returns `out` at once. -/
def parseQuestionResponse (data : List Char) : Option GQOut :=
  if containsSub data gqMarker && containsSub data mrdMarker then
    some (
      match findSub data probMarker with
      | some _ =>
          let sec := probSectionGQ data
          match searchKeyNum yesKey sec, searchKeyNum noKey sec with
          | some y, some n =>
              if y + n == 100 && (decide (0 ≤ y) && decide (y ≤ 100)) then
                { question := some (fixQuestionGreedy (rawQuestion data)),
                  prob := some (.binary y n),
                  endDate := some (endDateGQ data) }
              else GQOut.allNone
          | _, _ =>
              let opts := optionsGQ data
              if opts.isEmpty then GQOut.allNone
              else
                let total := (opts.map Prod.snd).sum
                if total == 100 && opts.all (fun p => decide (0 ≤ p.2) && decide (p.2 ≤ 100)) then
                  { question := some (fixQuestionGreedy (rawQuestion data)),
                    prob := some (.multi opts),
                    endDate := some (endDateGQ data) }
                else GQOut.allNone
      | none => GQOut.allNone)
  else none

/-- Lines 256-265 of `sports_api.py` (`generate_question_from_api`): the
question fragment — identical slice-and-strip as `generate_question`
followed by the greedy `.*\?` truncation. -/
def questionFromApi (data : List Char) : List Char :=
  fixQuestionGreedy (rawQuestion data)

/-- Return value of `SportsApiService.generate_multiple_question`:
`(question, option_array, None, event_description)`. -/
structure MQOut where
  question : Option (List Char)
  options : Option (List (List Char × Nat))
  endDate : Option (List Char)
  desc : Option (List Char)
deriving DecidableEq

/-- Uniform `(None, None, None, None)` result of `generate_multiple_question`. -/
def MQOut.allNone : MQOut := ⟨none, none, none, none⟩

/-- Line 391-393 start of the probability slice: `data.find('Probability:')`
is `-1` when the marker is absent, and Python then slices from
`-1 + len('Probability:') = 11`. -/
def mqProbStart (data : List Char) : Nat :=
  match findSub data probMarker with
  | some i => i + probMarker.length
  | none => probMarker.length - 1

/-- Line 393: probability section of `generate_multiple_question`; the slice
runs to `data.find('Event Description:')` only when that index is `> 0`. -/
def probSectionMQ (data : List Char) : List Char :=
  strip (
    match findSub data edMarker with
    | some i => if 0 < i then slice data (mqProbStart data) i else sliceFrom data (mqProbStart data)
    | none => sliceFrom data (mqProbStart data))

/-- Lines 383-388: event description slice of `generate_multiple_question`. -/
def descMQ (data : List Char) : Option (List Char) :=
  match findSub data edMarker with
  | some i => some (strip (sliceFrom data (i + edMarker.length)))
  | none => none

/-- Lines 395-396: extracted and stripped option pairs of
`generate_multiple_question`. -/
def optionsMQ (data : List Char) : List (List Char × Nat) :=
  (findAllOptions nameCharSports (probSectionMQ data)).map (fun p => (strip p.1, p.2))

/-- Placeholder names rejected on line 401 of `sports_api.py`. -/
def placeholderNames : List (List Char) :=
  ["field".toList, "any other team".toList, "others".toList, "other team".toList]

/-- Lines 372-410 of `sports_api.py`: the parsing step of one
`generate_multiple_question` attempt on the model response `data`.  `none`
means the attempt fails and the loop retries; `some out` means the function
returns `out`. -/
def parseMultipleResponse (data : List Char) : Option MQOut :=
  if containsSub data gqMarker then
    let opts := optionsMQ data
    if opts.isEmpty then none
    else
      let total := (opts.map Prod.snd).sum
      let valid := opts.all (fun p => decide (0 ≤ p.2) && decide (p.2 ≤ 100))
      let noField := opts.all (fun p => !(placeholderNames.contains (toLowerL p.1)))
      if total == 100 && valid && noField then
        some { question := some (fixQuestionLazy (rawQuestion data)),
               options := some opts,
               endDate := none,
               desc := descMQ data }
      else none
  else none

/-- World outcome of one `generate_question` attempt: an exception while
formatting the prompt, an exception in the model call, or a model response. -/
inductive GQAttempt where
  | formatError
  | invokeError
  | response (data : List Char)
deriving DecidableEq

/-- One iteration of the `generate_question` retry loop (lines 103-179):
`none` continues the loop (after the logged delay), `some out` returns. -/
def stepGenerateQuestion (a : GQAttempt) : Option GQOut :=
  match a with
  | .formatError => none
  | .invokeError => none
  | .response d => parseQuestionResponse d

/-- The `generate_question` retry loop over the scheduled attempt outcomes
(one list entry per `range(max_retries)` iteration); returns the function's
result together with the number of attempts actually consumed.  After the
last attempt the uniform all-`None` value is returned (line 181); every
exception path inside the loop is caught, so the loop itself never raises. -/
def runGenerateQuestion : List GQAttempt → GQOut × Nat
  | [] => (GQOut.allNone, 0)
  | a :: rest =>
      match stepGenerateQuestion a with
      | some out => (out, 1)
      | none =>
          let r := runGenerateQuestion rest
          (r.1, r.2 + 1)

/-- World outcome of one `generate_multiple_question` attempt: the whole
iteration body is a single `try`, so any exception (prompt formatting or
model call) is one outcome, and a model response the other. -/
inductive MQAttempt where
  | raised
  | response (data : List Char)
deriving DecidableEq

/-- One iteration of the `generate_multiple_question` retry loop
(lines 359-416): `none` continues the loop, `some out` returns. -/
def stepGenerateMultiple (a : MQAttempt) : Option MQOut :=
  match a with
  | .raised => none
  | .response d => parseMultipleResponse d

/-- The `generate_multiple_question` retry loop over the scheduled attempt
outcomes; after the last attempt `(None, None, None, None)` is returned
(line 418). -/
def runGenerateMultiple : List MQAttempt → MQOut × Nat
  | [] => (MQOut.allNone, 0)
  | a :: rest =>
      match stepGenerateMultiple a with
      | some out => (out, 1)
      | none =>
          let r := runGenerateMultiple rest
          (r.1, r.2 + 1)

/-- Anchored match of `r"\*{2}\s*rules?\s*\*{2}"` with `IGNORECASE`
(line 273 of `question_generator.py`); returns the text after the match. -/
def matchBoldRules (s : List Char) : Option (List Char) :=
  match s with
  | '*' :: '*' :: r0 =>
      let r1 := r0.dropWhile spaceChar
      if toLowerL (r1.take 4) == "rule".toList then
        let r2 := r1.drop 4
        let close : List Char → Option (List Char) := fun t =>
          match t.dropWhile spaceChar with
          | '*' :: '*' :: rem => some rem
          | _ => none
        match r2.head? with
        | some c =>
            if c.toLower = 's' then
              match close (r2.drop 1) with
              | some rem => some rem
              | none => close r2
            else close r2
        | none => close r2
      else none
  | _ => none

/-- Scanner of `re.sub(r"\*{2}\s*rules?\s*\*{2}", '', text, flags=IGNORECASE)`:
replace every non-overlapping leftmost match by nothing.  Each step consumes
at least one character, so fuel `length + 1` is never exhausted. -/
def removeBoldRulesAux : Nat → List Char → List Char
  | 0, s => s
  | fuel + 1, s =>
      match matchBoldRules s with
      | some rem => removeBoldRulesAux fuel rem
      | none =>
          match s with
          | [] => []
          | c :: t => c :: removeBoldRulesAux fuel t

/-- Line 273: first substitution of `generate_rules`. -/
def removeBoldRules (s : List Char) : List Char :=
  removeBoldRulesAux (s.length + 1) s

/-- Boundary check and trailing consumption after the literal `rule(s)`:
the `\b` requires the next character to be a non-word one (or the end), and
then `\s*:?\s*` is consumed greedily.  Returns the remainder and whether the
last consumed character of the whole match is a word character (which is
what `\b` sees at the resumed scan position: when nothing is consumed here
the match ends on the word character `s`/`e`). -/
def wbAfter (t : List Char) : Option (List Char × Bool) :=
  match t.head? with
  | some c =>
      if wordChar c then none
      else
        let t1 := t.dropWhile spaceChar
        let t2 := match t1 with
          | ':' :: u => u.dropWhile spaceChar
          | _ => t1
        some (t2, t2.length == t.length)
  | none => some ([], true)

/-- Anchored match of `r"[rR]ules?\b\s*:?\s*"` (case-insensitive), for a
position whose preceding character already forms a word boundary; returns the
text after the match and whether the last consumed character is a word
character. -/
def matchWbRules (s : List Char) : Option (List Char × Bool) :=
  if toLowerL (s.take 4) == "rule".toList then
    let r := s.drop 4
    match r.head? with
    | some c =>
        if c.toLower = 's' then
          match wbAfter (r.drop 1) with
          | some x => some x
          | none => wbAfter r
        else wbAfter r
    | none => wbAfter r
  else none

/-- Scanner of `re.sub(r"\b[rR]ules?\b\s*:?\s*", '', text, flags=IGNORECASE)`:
`prevWord` tracks whether the previous character of the original text is a
word character, so that `\b` holds exactly when `prevWord` is false. -/
def removeWbRulesAux : Nat → Bool → List Char → List Char
  | 0, _, s => s
  | fuel + 1, prevWord, s =>
      match s with
      | [] => []
      | c :: t =>
          if !prevWord then
            match matchWbRules s with
            | some (rem, lw) => removeWbRulesAux fuel lw rem
            | none => c :: removeWbRulesAux fuel (wordChar c) t
          else c :: removeWbRulesAux fuel (wordChar c) t

/-- Line 274: second substitution of `generate_rules`. -/
def removeWbRules (s : List Char) : List Char :=
  removeWbRulesAux (s.length + 1) false s

/-- Line 275: `re.sub(r"\*{2}", '', text)`, removing every `**`. -/
def removeDoubleStars : List Char → List Char
  | '*' :: '*' :: t => removeDoubleStars t
  | c :: t => c :: removeDoubleStars t
  | [] => []

/-- Lines 270-277 of `generate_rules`: strip the response, apply the three
substitutions in order, and strip again (`text.strip()` on line 275 and
`cleaned = text.strip()` on line 277). -/
def stripRulesText (r : List Char) : List Char :=
  strip (strip (removeDoubleStars (removeWbRules (removeBoldRules (strip r)))))

/-- Case-insensitive comparison of a character with a letter given in both
cases. -/
def sameLetter (c lo up : Char) : Bool :=
  c = lo || c = up

/-- Specification-side predicate: anchored case-insensitive occurrence of the
word `rules` followed by a word boundary. -/
def standaloneRulesAt : List Char → Bool
  | c1 :: c2 :: c3 :: c4 :: c5 :: rest =>
      sameLetter c1 'r' 'R' && sameLetter c2 'u' 'U' && sameLetter c3 'l' 'L' &&
        sameLetter c4 'e' 'E' && sameLetter c5 's' 'S' &&
        (match rest.head? with
         | some c => !wordChar c
         | none => true)
  | _ => false

/-- Helper scanner for `containsStandaloneRules`. -/
def containsStandaloneRulesAux : Bool → List Char → Bool
  | _, [] => false
  | prevWord, c :: t =>
      (!prevWord && standaloneRulesAt (c :: t)) || containsStandaloneRulesAux (wordChar c) t

/-- Specification-side predicate, written from the spec's words: the text
contains a standalone (word-boundary delimited) occurrence of `rules`. -/
def containsStandaloneRules (s : List Char) : Bool :=
  containsStandaloneRulesAux false s

/-- World outcome of one `generate_rules` attempt: an exception anywhere in
the `try` body, or a model response text. -/
inductive RulesAttempt where
  | raised
  | response (r : List Char)
deriving DecidableEq

/-- One iteration of the `generate_rules` retry loop (lines 260-287):
`none` continues the loop, `some v` makes the function return `v`.  When the
cleaned text is non-empty it is returned (line 279); when cleaning strips
everything, `None` is returned at once (line 282); only an exception takes
the retry path (lines 284-287). -/
def stepGenerateRules (a : RulesAttempt) : Option (Option (List Char)) :=
  match a with
  | .raised => none
  | .response r =>
      let cleaned := stripRulesText r
      if cleaned.isEmpty then some none else some (some cleaned)

/-- The `generate_rules` retry loop over the scheduled attempt outcomes,
returning the result and the number of attempts consumed; after the last
attempt `None` is returned (line 289). -/
def runGenerateRules : List RulesAttempt → Option (List Char) × Nat
  | [] => (none, 0)
  | a :: rest =>
      match stepGenerateRules a with
      | some v => (v, 1)
      | none =>
          let r := runGenerateRules rest
          (r.1, r.2 + 1)

/-- Module state of the image-search wrapper (`IMAGE_SEARCH_DISABLED`,
`IMAGE_SEARCH_COUNT` in `main.py`). -/
structure ImgState where
  disabled : Bool
  count : Nat
deriving DecidableEq

/-- World outcome of one underlying `google_image_search` network call. -/
inductive ImgCall where
  | ret (url : Option (List Char))
  | httpError (status : Option Nat)
  | otherError
deriving DecidableEq

/-- Observable effect of one `safe_google_image_search` call: the new module
state, the returned value, and whether the network call was invoked. -/
structure ImgStep where
  state : ImgState
  result : Option (List Char)
  networkCalled : Bool
deriving DecidableEq

/-- Lines 72-112 of `main.py`: `safe_google_image_search`.  The wrapper
short-circuits to `None` without a network call when the disabled flag is set
or the per-run count has reached the cap; otherwise it increments the count,
performs the call, sets the flag on an HTTP 429, and swallows every other
error. -/
def safe_google_image_search (maxSearches : Nat) (st : ImgState) (call : ImgCall) : ImgStep :=
  if st.disabled then ⟨st, none, false⟩
  else if maxSearches ≤ st.count then ⟨st, none, false⟩
  else
    let count1 := st.count + 1
    match call with
    | .ret url => ⟨⟨st.disabled, count1⟩, url, true⟩
    | .httpError status =>
        if status == some 429 then ⟨⟨true, count1⟩, none, true⟩
        else ⟨⟨st.disabled, count1⟩, none, true⟩
    | .otherError => ⟨⟨st.disabled, count1⟩, none, true⟩

/-- Iterated image searches within one run: thread the module state through a
sequence of calls, collecting each call's returned value and whether the
network was invoked. -/
def runImageSearches (maxSearches : Nat) (st : ImgState) :
    List ImgCall → ImgState × List (Option (List Char) × Bool)
  | [] => (st, [])
  | c :: rest =>
      let s := safe_google_image_search maxSearches st c
      let r := runImageSearches maxSearches s.state rest
      (r.1, (s.result, s.networkCalled) :: r.2)

/-- The `OptionData` pydantic model (`app/models/event.py`, lines 18-24):
object identifiers are modelled as naturals. -/
structure OptionData where
  option : List Char
  probability : Int
  market : Option Nat
deriving DecidableEq

/-- The `EventData` pydantic model (`app/models/event.py`, lines 27-55),
restricted to the explicitly supplied fields; object identifiers and
datetimes are modelled as naturals.  Pydantic requires `title` and
`event_description` to be strings; a `None` there raises a validation error
at construction, which the persistence model surfaces as a build failure. -/
structure EventData where
  is_child : Bool
  is_sport_page : Bool
  sport_key : Option (List Char) := none
  is_approved : Bool := false
  category : Option Nat := none
  topic : Option Nat := none
  has_options : Bool
  title : Option (List Char)
  end_date : Option Nat := none
  event_description : Option (List Char)
  rules : Option (List Char) := none
  probability_of_yes : Option Int := none
  probability_of_no : Option Int := none
  options : Option (List OptionData) := none
  event_image : Option (List Char) := none
  source_link : Option (List Char) := none
deriving DecidableEq

/-- Lines 669-691 of `main.py` (`save_multi_option_event`): the child `EventData`
built for one option of a scraped-content multi-option item, where
`prob_yes = option_prob` and `prob_no = 100 - prob_yes` (lines 645-646). -/
def mkChildEventScraped (catId topicId : Option Nat) (title : Option (List Char))
    (endDate : Option Nat) (desc rules img link : Option (List Char))
    (optionProb : Int) : EventData :=
  { is_approved := false
    is_child := true
    is_sport_page := false
    sport_key := none
    category := catId
    topic := topicId
    has_options := false
    title := title
    end_date := endDate
    event_description := desc
    rules := rules
    probability_of_yes := some optionProb
    probability_of_no := some (100 - optionProb)
    options := none
    event_image := img
    source_link := link }

/-- Lines 349-371 of `main.py` (`process_null_team_event`): the child
`EventData` built for one option of a sports null-team item, with
`prob_yes = option_prob` and `prob_no = 100 - prob_yes` (lines 327-328). -/
def mkChildEventNullTeam (sportKey : Option (List Char)) (catId : Option Nat)
    (title : Option (List Char)) (endDate : Option Nat)
    (desc rules img : Option (List Char)) (optionProb : Int) : EventData :=
  { is_approved := false
    is_child := true
    is_sport_page := true
    sport_key := sportKey
    category := catId
    topic := none
    has_options := false
    title := title
    end_date := endDate
    event_description := desc
    rules := rules
    probability_of_yes := some optionProb
    probability_of_no := some (100 - optionProb)
    options := none
    event_image := img
    source_link := none }

/-- World outcome of `get_event_collection()`: a collection, `None`, or an
exception. -/
inductive GetCollOutcome where
  | ok
  | isNone
  | raised
deriving DecidableEq

/-- World outcome of `collection.insert_one(...)`. -/
inductive InsertOutcome where
  | ok (id : Nat)
  | raised
deriving DecidableEq

/-- Return dictionary of a successful `save_event`. -/
structure SaveResp where
  status : List Char
  inserted_id : Nat
deriving DecidableEq

/-- Lines 70-91 of `app/models/event.py`: `save_event` either returns the
success dictionary or raises a `RuntimeError` (the internal `None`-collection
`raise` is caught by the same `except` and re-raised wrapped); it has no
falsy return path. -/
def save_event (g : GetCollOutcome) (ins : InsertOutcome) : Except (List Char) SaveResp :=
  match g with
  | .raised => .error ("Failed to save event data".toList)
  | .isNone => .error ("Failed to save event data: Database connection failed".toList)
  | .ok =>
      match ins with
      | .raised => .error ("Failed to save event data".toList)
      | .ok id => .ok ⟨"success".toList, id⟩

/-- World outcome of processing one option inside the child loop:
`buildError` models an exception before the child insert (for example a
pydantic validation error while constructing the child event), the other two
the child `save_event` raising or succeeding with an identity. -/
inductive ChildOutcome where
  | buildError
  | insertRaised
  | insertOk (id : Nat)
deriving DecidableEq

/-- World outcome of the parent `update_one` patch. -/
inductive PatchOutcome where
  | modified
  | notModified
  | raised
deriving DecidableEq

/-- Database operation attempted by the persister, in order. -/
inductive DbOp where
  | insertParent
  | insertChild (optionName : List Char)
  | patchParent (opts : List OptionData)
deriving DecidableEq

/-- Lines 641-729 / 323-407 of `main.py`: the per-option loop.  A build
error skips the option with no insert attempt; an insert that raises is
caught, logged and the option omitted; a successful insert appends an
`OptionData` carrying the child's identity.  Returns the collected
`updated_options` and the child-insert operations attempted, in order. -/
def childLoop : List ((List Char × Int) × ChildOutcome) → List OptionData × List DbOp
  | [] => ([], [])
  | ((nm, p), oc) :: rest =>
      let r := childLoop rest
      match oc with
      | .buildError => r
      | .insertRaised => (r.1, .insertChild nm :: r.2)
      | .insertOk cid => (⟨nm, p, some cid⟩ :: r.1, .insertChild nm :: r.2)

/-- Lines 637-765 of `main.py`: after a successful parent insert, run the
child loop and then patch the parent's `options` — but only when
`updated_options` is non-empty (line 732 / 410); with no successful child
the function skips the patch and still returns `True` (line 765 / 442). -/
def persistChildrenAndPatch (items : List ((List Char × Int) × ChildOutcome))
    (patch : PatchOutcome) : Bool × List DbOp :=
  let r := childLoop items
  if r.1.isEmpty then (true, DbOp.insertParent :: r.2)
  else
    let trace := DbOp.insertParent :: r.2 ++ [DbOp.patchParent r.1]
    match patch with
    | .modified => (true, trace)
    | .notModified => (false, trace)
    | .raised => (false, trace)

/-- Lines 580-772 of `main.py`: `save_multi_option_event`.  The parent insert
is attempted first; if `save_event` raises, the outer `except` returns
`False` with no child processed.  Otherwise children and the final patch
proceed as in `persistChildrenAndPatch`. -/
def save_multi_option_event (parent : Except Unit Nat)
    (items : List ((List Char × Int) × ChildOutcome)) (patch : PatchOutcome) :
    Bool × List DbOp :=
  match parent with
  | .error _ => (false, [DbOp.insertParent])
  | .ok _ => persistChildrenAndPatch items patch

/-- Lines 240-442 of `main.py`: `process_null_team_event` has the same
parent-children-patch structure, except that there is no `try` around the
parent insert, so a raising parent `save_event` propagates out of the
function (modelled as `.error`); its caller catches it (lines 218-228). -/
def process_null_team_event (parent : Except Unit Nat)
    (items : List ((List Char × Int) × ChildOutcome)) (patch : PatchOutcome) :
    Except Unit Bool × List DbOp :=
  match parent with
  | .error _ => (.error (), [DbOp.insertParent])
  | .ok _ =>
      let r := persistChildrenAndPatch items patch
      (.ok r.1, r.2)

/-- Number of parent patches in a trace. -/
def numPatches (t : List DbOp) : Nat :=
  t.countP fun o =>
    match o with
    | .patchParent _ => true
    | _ => false

/-- Options whose child insert succeeded, in order, each carrying the child's
identity (specification-side characterization of the child loop). -/
def succOptions : List ((List Char × Int) × ChildOutcome) → List OptionData
  | [] => []
  | ((nm, p), .insertOk cid) :: rest => ⟨nm, p, some cid⟩ :: succOptions rest
  | _ :: rest => succOptions rest

/-- Child-insert operations attempted, in order (specification-side
characterization of the child loop): one per option except those whose
build failed before the insert. -/
def childInsertOps : List ((List Char × Int) × ChildOutcome) → List DbOp
  | [] => []
  | ((_, _), .buildError) :: rest => childInsertOps rest
  | ((nm, _), _) :: rest => DbOp.insertChild nm :: childInsertOps rest

/-- Overall result of the persister when the patch is attempted. -/
def patchResult : PatchOutcome → Bool
  | .modified => true
  | .notModified => false
  | .raised => false

theorem childLoop_eq (items : List ((List Char × Int) × ChildOutcome)) :
    childLoop items = (succOptions items, childInsertOps items) := by
  induction items with
  | nil => rfl
  | cons hd rest ih =>
      obtain ⟨⟨nm, p⟩, oc⟩ := hd
      cases oc <;> simp [childLoop, succOptions, childInsertOps, ih]

theorem runImageSearches_disabled (maxSearches : Nat) (st : ImgState)
    (calls : List ImgCall) (h : st.disabled = true) :
    runImageSearches maxSearches st calls = (st, calls.map fun _ => (none, false)) := by
  induction calls with
  | nil => simp [runImageSearches]
  | cons c rest ih => simp [runImageSearches, safe_google_image_search, h, ih]

theorem runImageSearches_capped (maxSearches : Nat) (st : ImgState)
    (calls : List ImgCall) (h : st.disabled = false) (hc : maxSearches ≤ st.count) :
    runImageSearches maxSearches st calls = (st, calls.map fun _ => (none, false)) := by
  induction calls with
  | nil => simp [runImageSearches]
  | cons c rest ih => simp [runImageSearches, safe_google_image_search, h, hc, ih]

/-- Claim C2 is corrected by this theorem: for a multi-option item whose
parent insert succeeds, the parent is inserted first and one child insert is
attempted per option (options whose build fails are skipped before the
insert); failing options are omitted, and the final patch carries exactly
the options whose child insert succeeded, each with its child's identity —
but the patch is attempted only when at least one child insert succeeded;
when every child fails there is no patch at all and the function still
returns `True`.  A parent insert failure aborts the item with no child
attempted (`save_multi_option_event` returns `False`;
`process_null_team_event` propagates the exception to its caller). -/
theorem claim_C2 (pid : Nat) (items : List ((List Char × Int) × ChildOutcome))
    (patch : PatchOutcome) :
    save_multi_option_event (.error ()) items patch = (false, [DbOp.insertParent]) ∧
    process_null_team_event (.error ()) items patch = (.error (), [DbOp.insertParent]) ∧
    save_multi_option_event (.ok pid) items patch =
      ((if succOptions items = [] then true else patchResult patch),
        DbOp.insertParent :: childInsertOps items ++
          (if succOptions items = [] then [] else [DbOp.patchParent (succOptions items)])) ∧
    process_null_team_event (.ok pid) items patch =
      (.ok (if succOptions items = [] then true else patchResult patch),
        DbOp.insertParent :: childInsertOps items ++
          (if succOptions items = [] then [] else [DbOp.patchParent (succOptions items)])) := by
  refine ⟨rfl, rfl, ?_, ?_⟩ <;>
    · simp only [save_multi_option_event, process_null_team_event, persistChildrenAndPatch,
        childLoop_eq]
      by_cases h : succOptions items = []
      · simp [h]
      · cases patch <;> simp [h, patchResult, List.isEmpty_iff]

/-- Claim C2, counterexample to the claim as stated: the parent insert
succeeds and the single option's child insert fails, so `updated_options`
stays empty and the run finishes with no patch of the parent at all (and
result `True`), while the claim promises one final patch containing exactly
the successful options. -/
theorem claim_C2_counterexample :
    save_multi_option_event (.ok 1) [(("A".toList, (100 : Int)), ChildOutcome.insertRaised)]
        PatchOutcome.modified
      = (true, [DbOp.insertParent, DbOp.insertChild ("A".toList)]) ∧
    numPatches [DbOp.insertParent, DbOp.insertChild ("A".toList)] = 0 := by
  exact ⟨rfl, rfl⟩

/-- Claim C8 is confirmed: once the disabled flag is set it is never cleared
and every subsequent call returns `None` without invoking the network call;
an observed HTTP 429 (from an enabled, under-cap state) sets the flag; and
once the per-run count has reached the cap, every subsequent call returns
`None` without a network call, leaving the state unchanged. -/
theorem claim_C8 (maxSearches : Nat) (st : ImgState) (calls : List ImgCall) (o : ImgCall) :
    (st.disabled = true →
      runImageSearches maxSearches st calls = (st, calls.map fun _ => (none, false))) ∧
    (st.disabled = true → (safe_google_image_search maxSearches st o).state.disabled = true) ∧
    (st.disabled = false → st.count < maxSearches →
      safe_google_image_search maxSearches st (.httpError (some 429)) =
        ⟨⟨true, st.count + 1⟩, none, true⟩) ∧
    (st.disabled = false → maxSearches ≤ st.count →
      runImageSearches maxSearches st calls = (st, calls.map fun _ => (none, false))) := by
  refine ⟨fun h => runImageSearches_disabled _ _ _ h, fun h => ?_, fun h hc => ?_,
    fun h hc => runImageSearches_capped _ _ _ h hc⟩
  · simp [safe_google_image_search, h]
  · have : ¬ maxSearches ≤ st.count := by omega
    simp [safe_google_image_search, h, this]

/-- Claim C8 witness: concrete instantiations of each hypothesis-guarded
part of `claim_C8`. -/
theorem claim_C8_witness :
    runImageSearches 2 ⟨true, 0⟩ [ImgCall.otherError] = (⟨true, 0⟩, [(none, false)]) ∧
    safe_google_image_search 2 ⟨false, 1⟩ (.httpError (some 429)) = ⟨⟨true, 2⟩, none, true⟩ ∧
    runImageSearches 2 ⟨false, 2⟩ [ImgCall.ret (some ("u".toList))] =
      (⟨false, 2⟩, [(none, false)]) :=
  ⟨(claim_C8 2 ⟨true, 0⟩ [ImgCall.otherError] ImgCall.otherError).1 rfl,
    (claim_C8 2 ⟨false, 1⟩ [] ImgCall.otherError).2.2.1 rfl (by decide),
    (claim_C8 2 ⟨false, 2⟩ [ImgCall.ret (some ("u".toList))] ImgCall.otherError).2.2.2 rfl
      (by decide)⟩

/-- Claim C9 is confirmed: every child event built for an option — in the
scraped-content multi-option path and in the sports null-team path — carries
`probability_of_yes = option probability`, `probability_of_no = 100 - that
probability` (so the two always sum to 100), and is built with
`is_child = True`, `has_options = False` and `options = None`. -/
theorem claim_C9 (catId topicId : Option Nat) (sportKey : Option (List Char))
    (title : Option (List Char)) (endDate : Option Nat)
    (desc rules img link : Option (List Char)) (p : Int) :
    (mkChildEventScraped catId topicId title endDate desc rules img link p).probability_of_yes
        = some p ∧
    (mkChildEventScraped catId topicId title endDate desc rules img link p).probability_of_no
        = some (100 - p) ∧
    p + (100 - p) = 100 ∧
    (mkChildEventScraped catId topicId title endDate desc rules img link p).is_child = true ∧
    (mkChildEventScraped catId topicId title endDate desc rules img link p).has_options = false ∧
    (mkChildEventScraped catId topicId title endDate desc rules img link p).options = none ∧
    (mkChildEventNullTeam sportKey catId title endDate desc rules img p).probability_of_yes
        = some p ∧
    (mkChildEventNullTeam sportKey catId title endDate desc rules img p).probability_of_no
        = some (100 - p) ∧
    (mkChildEventNullTeam sportKey catId title endDate desc rules img p).is_child = true ∧
    (mkChildEventNullTeam sportKey catId title endDate desc rules img p).has_options = false ∧
    (mkChildEventNullTeam sportKey catId title endDate desc rules img p).options = none :=
  ⟨rfl, rfl, by ring, rfl, rfl, rfl, rfl, rfl, rfl, rfl, rfl⟩

/-- Claim C10 is confirmed: `save_event` either returns the success
dictionary (status `success`, truthy for every caller's `if not
save_response` test) or raises; there is no falsy return.  An unavailable
collection and a failing insert both surface as the raised `RuntimeError`,
which `save_multi_option_event`'s handler turns into a `False` return with
no child processed. -/
theorem claim_C10 (g : GetCollOutcome) (ins : InsertOutcome) :
    ((∃ r, save_event g ins = .ok r ∧ r.status = "success".toList) ∨
      (∃ m, save_event g ins = .error m)) ∧
    (∀ r, save_event g ins = Except.ok r → r.status = "success".toList) ∧
    (save_event GetCollOutcome.isNone ins =
      .error ("Failed to save event data: Database connection failed".toList)) ∧
    (save_event GetCollOutcome.ok InsertOutcome.raised =
      .error ("Failed to save event data".toList)) ∧
    (∀ items patch, save_multi_option_event (.error ()) items patch =
      (false, [DbOp.insertParent])) := by
  refine ⟨?_, ?_, ?_, rfl, fun items patch => rfl⟩
  · cases g <;> cases ins <;> simp [save_event]
  · intro r hr
    cases g <;> cases ins <;>
      first
        | (simp [save_event] at hr; simp [← hr])
        | simp [save_event] at hr
  · cases ins <;> rfl

/-- Claim C10 witness: a successful insert returns the success status. -/
theorem claim_C10_witness :
    SaveResp.status ⟨"success".toList, 5⟩ = "success".toList :=
  (claim_C10 GetCollOutcome.ok (InsertOutcome.ok 5)).2.1 ⟨"success".toList, 5⟩ rfl

/-- Attempt outcomes covered by claim C4 for `generate_question`: a failed
model call, or a response with no `'Generated Question:'` marker. -/
def barrenGQ : GQAttempt → Bool
  | .formatError => false
  | .invokeError => true
  | .response d => !(containsSub d gqMarker)

/-- Attempt outcomes covered by claim C4 for `generate_multiple_question`. -/
def barrenMQ : MQAttempt → Bool
  | .raised => true
  | .response d => !(containsSub d gqMarker)

theorem parse_no_marker (d : List Char) (h : containsSub d gqMarker = false) :
    parseQuestionResponse d = none := by
  simp [parseQuestionResponse, h]

theorem parseMultiple_no_marker (d : List Char) (h : containsSub d gqMarker = false) :
    parseMultipleResponse d = none := by
  simp [parseMultipleResponse, h]

theorem stepGQ_barren (a : GQAttempt) (h : barrenGQ a = true) :
    stepGenerateQuestion a = none := by
  cases a with
  | formatError => rfl
  | invokeError => rfl
  | response d =>
      simp only [barrenGQ, Bool.not_eq_true'] at h
      exact parse_no_marker d h

theorem stepMQ_barren (a : MQAttempt) (h : barrenMQ a = true) :
    stepGenerateMultiple a = none := by
  cases a with
  | raised => rfl
  | response d =>
      simp only [barrenMQ, Bool.not_eq_true'] at h
      exact parseMultiple_no_marker d h

theorem runGQ_barren (attempts : List GQAttempt) (h : ∀ a ∈ attempts, barrenGQ a = true) :
    runGenerateQuestion attempts = (GQOut.allNone, attempts.length) := by
  induction attempts with
  | nil => rfl
  | cons a rest ih =>
      have hs := stepGQ_barren a (h a (List.mem_cons_self a rest))
      have hr := ih (fun b hb => h b (List.mem_cons_of_mem a hb))
      simp [runGenerateQuestion, hs, hr]

theorem runMQ_barren (attempts : List MQAttempt) (h : ∀ a ∈ attempts, barrenMQ a = true) :
    runGenerateMultiple attempts = (MQOut.allNone, attempts.length) := by
  induction attempts with
  | nil => rfl
  | cons a rest ih =>
      have hs := stepMQ_barren a (h a (List.mem_cons_self a rest))
      have hr := ih (fun b hb => h b (List.mem_cons_of_mem a hb))
      simp [runGenerateMultiple, hs, hr]

/-- Claim C4 is confirmed: when every scheduled attempt is a failed model
call or a response with no `'Generated Question:'` marker, both retry loops
consume exactly their `max_retries` attempts (the full schedule) and return
the uniform all-`None` result; the translated loops are total functions, in
which every exception path of the original is a caught outcome, so no
exception escapes. -/
theorem claim_C4 (as1 : List GQAttempt) (as2 : List MQAttempt)
    (h1 : ∀ a ∈ as1, barrenGQ a = true) (h2 : ∀ a ∈ as2, barrenMQ a = true) :
    runGenerateQuestion as1 = (GQOut.allNone, as1.length) ∧
    runGenerateMultiple as2 = (MQOut.allNone, as2.length) :=
  ⟨runGQ_barren as1 h1, runMQ_barren as2 h2⟩

/-- Claim C4 witness: a three-attempt schedule of failures for
`generate_question` and a one-attempt schedule for
`generate_multiple_question`. -/
theorem claim_C4_witness :
    runGenerateQuestion
        [GQAttempt.invokeError, GQAttempt.response ("no markers".toList),
          GQAttempt.invokeError] = (GQOut.allNone, 3) ∧
    runGenerateMultiple [MQAttempt.raised] = (MQOut.allNone, 1) :=
  claim_C4 _ _ (by decide) (by decide)

theorem parse_invalid_binary (data : List Char) (y n : Nat)
    (hgq : containsSub data gqMarker = true)
    (hmrd : containsSub data mrdMarker = true)
    (hprob : containsSub data probMarker = true)
    (hy : searchKeyNum yesKey (probSectionGQ data) = some y)
    (hn : searchKeyNum noKey (probSectionGQ data) = some n)
    (hsum : y + n ≠ 100) :
    parseQuestionResponse data = some GQOut.allNone := by
  obtain ⟨i, hi⟩ := Option.isSome_iff_exists.mp (by simpa [containsSub] using hprob)
  have hyn : (y + n == 100) = false := by simpa using hsum
  simp [parseQuestionResponse, hgq, hmrd, hi, hy, hn, hyn]

theorem runGQ_response (data : List Char) (rest : List GQAttempt) (out : GQOut)
    (hp : parseQuestionResponse data = some out) :
    runGenerateQuestion (GQAttempt.response data :: rest) = (out, 1) := by
  simp [runGenerateQuestion, stepGenerateQuestion, hp]

theorem parse_no_prob (data : List Char)
    (hgq : containsSub data gqMarker = true)
    (hmrd : containsSub data mrdMarker = true)
    (hprob : containsSub data probMarker = false) :
    parseQuestionResponse data = some GQOut.allNone := by
  have hfind : findSub data probMarker = none := by
    cases h : findSub data probMarker with
    | none => rfl
    | some i =>
        rw [containsSub, h] at hprob
        exact absurd hprob (by simp)
  simp [parseQuestionResponse, hgq, hmrd, hfind]

theorem parse_multi_fail (data : List Char) (i : Nat)
    (hgq : containsSub data gqMarker = true)
    (hmrd : containsSub data mrdMarker = true)
    (hi : findSub data probMarker = some i)
    (hbin : searchKeyNum yesKey (probSectionGQ data) = none ∨
      searchKeyNum noKey (probSectionGQ data) = none)
    (hbad : optionsGQ data = [] ∨ ((optionsGQ data).map Prod.snd).sum ≠ 100 ∨
      ∃ p ∈ optionsGQ data, ¬ p.2 ≤ 100) :
    parseQuestionResponse data = some GQOut.allNone := by
  by_cases hopts : optionsGQ data = []
  · have hemp : (optionsGQ data).isEmpty = true := by simp [hopts]
    rcases hbin with hb | hb
    · simp [parseQuestionResponse, hgq, hmrd, hi, hb, hemp]
    · cases hy : searchKeyNum yesKey (probSectionGQ data) with
      | none => simp [parseQuestionResponse, hgq, hmrd, hi, hy, hemp]
      | some y => simp [parseQuestionResponse, hgq, hmrd, hi, hy, hb, hemp]
  · have hemp : (optionsGQ data).isEmpty = false := by
      cases h0 : optionsGQ data with
      | nil => exact absurd h0 hopts
      | cons a t => rfl
    have hbad2 : ((optionsGQ data).map Prod.snd).sum ≠ 100 ∨
        ∃ p ∈ optionsGQ data, ¬ p.2 ≤ 100 := by
      rcases hbad with h | h
      · exact absurd h hopts
      · exact h
    rcases hbin with hb | hb
    · simp [parseQuestionResponse, hgq, hmrd, hi, hb, hemp]
      intro hsum hallb
      rcases hbad2 with h | ⟨p, hp, hple⟩
      · exact absurd hsum h
      · exact absurd (hallb p.1 p.2 (by simpa using hp)) hple
    · cases hy : searchKeyNum yesKey (probSectionGQ data) with
      | none =>
          simp [parseQuestionResponse, hgq, hmrd, hi, hy, hemp]
          intro hsum hallb
          rcases hbad2 with h | ⟨p, hp, hple⟩
          · exact absurd hsum h
          · exact absurd (hallb p.1 p.2 (by simpa using hp)) hple
      | some y =>
          simp [parseQuestionResponse, hgq, hmrd, hi, hy, hb, hemp]
          intro hsum hallb
          rcases hbad2 with h | ⟨p, hp, hple⟩
          · exact absurd hsum h
          · exact absurd (hallb p.1 p.2 (by simpa using hp)) hple

/-- Claim C5 is corrected by this theorem: an attempt whose response carries
both markers but fails probability validation — a missing `'Probability:'`
section, a binary Yes/No pair not summing to 100, no extractable option
pairs, or option pairs failing the sum-100 / range validation — makes
`generate_question` return the uniform all-`None` result immediately,
consuming only that one attempt; the remaining scheduled attempts are never
used, so validation failure does not drive the retry loop (only missing
markers, prompt formatting errors, model-call errors and parse exceptions
do). -/
theorem claim_C5 (data : List Char) (rest : List GQAttempt)
    (hgq : containsSub data gqMarker = true)
    (hmrd : containsSub data mrdMarker = true) :
    (containsSub data probMarker = false →
      runGenerateQuestion (GQAttempt.response data :: rest) = (GQOut.allNone, 1)) ∧
    (∀ y n, searchKeyNum yesKey (probSectionGQ data) = some y →
      searchKeyNum noKey (probSectionGQ data) = some n →
      y + n ≠ 100 →
      runGenerateQuestion (GQAttempt.response data :: rest) = (GQOut.allNone, 1)) ∧
    ((searchKeyNum yesKey (probSectionGQ data) = none ∨
        searchKeyNum noKey (probSectionGQ data) = none) →
      (optionsGQ data = [] ∨ ((optionsGQ data).map Prod.snd).sum ≠ 100 ∨
        ∃ p ∈ optionsGQ data, ¬ p.2 ≤ 100) →
      runGenerateQuestion (GQAttempt.response data :: rest) = (GQOut.allNone, 1)) := by
  refine ⟨fun hprob => runGQ_response _ _ _ (parse_no_prob data hgq hmrd hprob),
    fun y n hy hn hsum => ?_, fun hbin hbad => ?_⟩
  · by_cases hprob : containsSub data probMarker = true
    · exact runGQ_response _ _ _ (parse_invalid_binary data y n hgq hmrd hprob hy hn hsum)
    · exact runGQ_response _ _ _ (parse_no_prob data hgq hmrd (by simpa using hprob))
  · by_cases hprob : containsSub data probMarker = true
    · obtain ⟨i, hi⟩ := Option.isSome_iff_exists.mp (by simpa [containsSub] using hprob)
      exact runGQ_response _ _ _ (parse_multi_fail data i hgq hmrd hi hbin hbad)
    · exact runGQ_response _ _ _ (parse_no_prob data hgq hmrd (by simpa using hprob))

/-- Response with both markers whose Yes/No pair sums to 110. -/
def c5data : List Char :=
  "Generated Question: Will A beat B? Probability: Yes: 60, No: 50 Market Resolution Date: 2026-01-15".toList

/-- Response identical to `c5data` except that the pair sums to 100. -/
def c5dataGood : List Char :=
  "Generated Question: Will A beat B? Probability: Yes: 60, No: 40 Market Resolution Date: 2026-01-15".toList

/-- Claim C5, counterexample to the claim as stated: the first attempt has
both markers and a Yes/No pair summing to 110 (validation failure), yet the
loop returns the uniform no-result after that single attempt even though the
second scheduled attempt would have parsed successfully — there is no sleep
and retry. -/
theorem claim_C5_counterexample :
    runGenerateQuestion [GQAttempt.response c5data, GQAttempt.response c5dataGood] =
      (GQOut.allNone, 1) ∧
    searchKeyNum yesKey (probSectionGQ c5data) = some 60 ∧
    searchKeyNum noKey (probSectionGQ c5data) = some 50 ∧
    containsSub c5data gqMarker = true ∧
    containsSub c5data mrdMarker = true ∧
    stepGenerateQuestion (GQAttempt.response c5dataGood) =
      some ⟨some ("Will A beat B?".toList), some (.binary 60 40),
        some ("2026-01-15".toList)⟩ := by
  refine ⟨?_, ?_, ?_, ?_, ?_, ?_⟩ <;> decide

/-- Response with both markers but no probability section. -/
def c5noProb : List Char :=
  "Generated Question: Will A win? Market Resolution Date: 2026-01-01".toList

/-- Response whose probability section yields no extractable pairs. -/
def c5noPairs : List Char :=
  "Generated Question: Q? Probability: none given Market Resolution Date: 2026-01-01".toList

/-- Response whose option pairs sum to 60, failing the multi-option
validation. -/
def c5badMulti : List Char :=
  "Generated Question: Q? Probability: Alpha: 30, Beta: 30 Market Resolution Date: 2026-01-01".toList

/-- Claim C5 witness: the amended theorem applied to a concrete instance of
each validation-failure mode — missing probability section, binary pair
summing to 110 (with a further scheduled attempt left unused), no
extractable pairs, and option pairs summing to 60. -/
theorem claim_C5_witness :
    runGenerateQuestion [GQAttempt.response c5noProb] = (GQOut.allNone, 1) ∧
    runGenerateQuestion [GQAttempt.response c5data, GQAttempt.invokeError] =
      (GQOut.allNone, 1) ∧
    runGenerateQuestion [GQAttempt.response c5noPairs] = (GQOut.allNone, 1) ∧
    runGenerateQuestion [GQAttempt.response c5badMulti] = (GQOut.allNone, 1) :=
  ⟨(claim_C5 c5noProb [] (by decide) (by decide)).1 (by decide),
    (claim_C5 c5data [GQAttempt.invokeError] (by decide) (by decide)).2.1 60 50
      (by decide) (by decide) (by decide),
    (claim_C5 c5noPairs [] (by decide) (by decide)).2.2 (Or.inl (by decide))
      (Or.inl (by decide)),
    (claim_C5 c5badMulti [] (by decide) (by decide)).2.2 (Or.inl (by decide))
      (Or.inr (Or.inl (by decide)))⟩

/-- Response with both markers and a valid Yes/No pair. -/
def c1data : List Char :=
  "Generated Question: Will A beat B? Probability: Yes: 60, No: 40 Market Resolution Date: 2026-01-15".toList

/-- Claim C1 is confirmed: when the response has both markers and the
probability section's regex searches yield the pair `(y, n)`, the extraction
returns exactly `(y, n)` if and only if `y + n = 100` with both in
`[0, 100]` (values captured by `\d+` are non-negative, so the remaining
bound checks follow from the sum); when `y + n ≠ 100` the whole call
returns the uniform no-result, in particular no probability. -/
theorem claim_C1 (data : List Char) (y n : Nat)
    (hgq : containsSub data gqMarker = true)
    (hmrd : containsSub data mrdMarker = true)
    (hprob : containsSub data probMarker = true)
    (hy : searchKeyNum yesKey (probSectionGQ data) = some y)
    (hn : searchKeyNum noKey (probSectionGQ data) = some n) :
    ((∃ q e, parseQuestionResponse data =
        some ⟨some q, some (ProbVal.binary y n), some e⟩) ↔
      (y + n = 100 ∧ y ≤ 100 ∧ n ≤ 100)) ∧
    (y + n ≠ 100 → parseQuestionResponse data = some GQOut.allNone) := by
  obtain ⟨i, hi⟩ := Option.isSome_iff_exists.mp (by simpa [containsSub] using hprob)
  refine ⟨⟨?_, ?_⟩, fun hsum => parse_invalid_binary data y n hgq hmrd hprob hy hn hsum⟩
  · rintro ⟨q, e, hp⟩
    by_cases hsum : y + n = 100
    · exact ⟨hsum, by omega, by omega⟩
    · rw [parse_invalid_binary data y n hgq hmrd hprob hy hn hsum] at hp
      simp [GQOut.allNone] at hp
  · rintro ⟨hsum, hy100, _⟩
    refine ⟨fixQuestionGreedy (rawQuestion data), endDateGQ data, ?_⟩
    simp [parseQuestionResponse, hgq, hmrd, hi, hy, hn, hsum, hy100]

/-- Claim C1 witness: the iff applied to a concrete response whose pair is
`(60, 40)`. -/
theorem claim_C1_witness :
    ∃ q e, parseQuestionResponse c1data =
      some ⟨some q, some (ProbVal.binary 60 40), some e⟩ :=
  (claim_C1 c1data 60 40 (by decide) (by decide) (by decide) (by decide)
    (by decide)).1.mpr (by decide)

theorem splitLinesAux_append_run (xs : List Char) (hnl : ∀ x ∈ xs, x ≠ '\n') :
    ∀ cur rest, splitLinesAux cur (xs ++ rest) = splitLinesAux (xs.reverse ++ cur) rest := by
  induction xs with
  | nil => intro cur rest; simp
  | cons x t ih =>
      intro cur rest
      have hx : ¬ x = '\n' := hnl x (List.mem_cons_self x t)
      have ht : ∀ y ∈ t, y ≠ '\n' := fun y hy => hnl y (List.mem_cons_of_mem x hy)
      simp only [List.cons_append, splitLinesAux, if_neg hx]
      rw [show (x :: t).reverse ++ cur = t.reverse ++ (x :: cur) from by simp]
      exact ih ht (x :: cur) rest

theorem splitLinesAux_head (s : List Char) :
    ∀ cur, ∃ ls, splitLinesAux cur s =
      (cur.reverse ++ s.takeWhile (fun c => !(c = '\n'))) :: ls := by
  induction s with
  | nil => intro cur; exact ⟨[], by simp [splitLinesAux]⟩
  | cons x t ih =>
      intro cur
      by_cases hx : x = '\n'
      · subst hx
        refine ⟨splitLinesAux [] t, ?_⟩
        simp [splitLinesAux, List.takeWhile_cons]
      · obtain ⟨ls, hls⟩ := ih (x :: cur)
        refine ⟨ls, ?_⟩
        simp only [splitLinesAux, if_neg hx, hls, List.takeWhile_cons, hx]
        simp

theorem takeToLastQ_append (xs ys : List Char) (hys : '?' ∉ ys) :
    takeToLastQ (xs ++ '?' :: ys) = xs ++ ['?'] := by
  have h1 : ∀ y ∈ ys.reverse, (fun c => !(c = '?')) y = true := by
    intro y hy
    simp only [Bool.not_eq_true', decide_eq_false_iff_not]
    intro h; exact hys (h ▸ List.mem_reverse.mp hy)
  simp only [takeToLastQ, List.reverse_append, List.reverse_cons]
  rw [List.append_assoc, List.dropWhile_append_of_pos h1]
  simp [List.dropWhile_cons]

theorem takeToFirstQ_append (xs ys : List Char) (hxs : '?' ∉ xs) :
    takeToFirstQ (xs ++ '?' :: ys) = xs ++ ['?'] := by
  induction xs with
  | nil => simp [takeToFirstQ]
  | cons x t ih =>
      have hx : ¬ x = '?' := fun h => hxs (h ▸ List.mem_cons_self x t)
      have ht : '?' ∉ t := fun h => hxs (List.mem_cons_of_mem x h)
      simp [takeToFirstQ, hx, ih ht]

theorem firstQLine (a b c : List Char)
    (ha : '?' ∉ a ∧ '\n' ∉ a) (hb : '?' ∉ b ∧ '\n' ∉ b) :
    ∃ ls, splitLines (a ++ '?' :: (b ++ '?' :: c)) =
      ((a ++ '?' :: (b ++ '?' :: c.takeWhile (fun x => !(x = '\n'))))) :: ls := by
  have hna : ∀ x ∈ a, x ≠ '\n' := fun x hx h => ha.2 (h ▸ hx)
  have hnb : ∀ x ∈ b, x ≠ '\n' := fun x hx h => hb.2 (h ▸ hx)
  have e1 : splitLines (a ++ '?' :: (b ++ '?' :: c)) =
      splitLinesAux (a.reverse ++ []) ('?' :: (b ++ '?' :: c)) := by
    unfold splitLines
    exact splitLinesAux_append_run a hna [] ('?' :: (b ++ '?' :: c))
  have e2 : splitLinesAux (a.reverse ++ []) ('?' :: (b ++ '?' :: c)) =
      splitLinesAux ('?' :: (a.reverse ++ [])) (b ++ '?' :: c) := by
    simp [splitLinesAux]
  have e3 : splitLinesAux ('?' :: (a.reverse ++ [])) (b ++ '?' :: c) =
      splitLinesAux (b.reverse ++ '?' :: (a.reverse ++ [])) ('?' :: c) :=
    splitLinesAux_append_run b hnb ('?' :: (a.reverse ++ [])) ('?' :: c)
  have e4 : splitLinesAux (b.reverse ++ '?' :: (a.reverse ++ [])) ('?' :: c) =
      splitLinesAux ('?' :: (b.reverse ++ '?' :: (a.reverse ++ []))) c := by
    simp [splitLinesAux]
  obtain ⟨ls, hls⟩ := splitLinesAux_head c ('?' :: (b.reverse ++ '?' :: (a.reverse ++ [])))
  refine ⟨ls, ?_⟩
  rw [e1, e2, e3, e4, hls]
  simp

theorem fixQuestion_two_marks (a b c : List Char)
    (ha : '?' ∉ a ∧ '\n' ∉ a) (hb : '?' ∉ b ∧ '\n' ∉ b) (hc : '?' ∉ c) :
    fixQuestionGreedy (a ++ '?' :: (b ++ '?' :: c)) = a ++ '?' :: (b ++ ['?']) ∧
    fixQuestionLazy (a ++ '?' :: (b ++ '?' :: c)) = a ++ ['?'] := by
  obtain ⟨ls, hls⟩ := firstQLine a b c ha hb
  have hctw : '?' ∉ c.takeWhile (fun x => !(x = '\n')) :=
    fun h => hc (List.takeWhile_subset _ h)
  have hmem : ('?' : Char) ∈ a ++ '?' :: (b ++ '?' :: c.takeWhile (fun x => !(x = '\n'))) := by
    simp
  have hcont : (a ++ '?' :: (b ++ '?' :: c.takeWhile (fun x => !(x = '\n')))).contains '?' = true := by
    simp [List.contains, List.elem_eq_mem, hmem]
  have hg : searchQuestionGreedy (a ++ '?' :: (b ++ '?' :: c)) =
      some (takeToLastQ (a ++ '?' :: (b ++ '?' :: c.takeWhile (fun x => !(x = '\n'))))) := by
    unfold searchQuestionGreedy
    rw [hls, List.find?_cons_of_pos ls hcont]
    rfl
  have hl : searchQuestionLazy (a ++ '?' :: (b ++ '?' :: c)) =
      some (takeToFirstQ (a ++ '?' :: (b ++ '?' :: c.takeWhile (fun x => !(x = '\n'))))) := by
    unfold searchQuestionLazy
    rw [hls, List.find?_cons_of_pos ls hcont]
    rfl
  constructor
  · unfold fixQuestionGreedy
    rw [hg]
    rw [show a ++ '?' :: (b ++ '?' :: c.takeWhile (fun x => !(x = '\n'))) =
      (a ++ '?' :: b) ++ '?' :: c.takeWhile (fun x => !(x = '\n')) from by simp]
    rw [takeToLastQ_append _ _ hctw]
    simp
  · unfold fixQuestionLazy
    rw [hl]
    rw [takeToFirstQ_append _ _ ha.1]

theorem parseGQ_question (data : List Char) (out : GQOut) (q : List Char)
    (hp : parseQuestionResponse data = some out) (hq : out.question = some q) :
    q = fixQuestionGreedy (rawQuestion data) := by
  simp only [parseQuestionResponse] at hp
  split at hp
  · have h2 := Option.some.inj hp
    split at h2
    · split at h2
      · split at h2
        · rw [← h2] at hq
          exact (Option.some.inj hq).symm
        · rw [← h2] at hq
          simp [GQOut.allNone] at hq
      · split at h2
        · rw [← h2] at hq
          simp [GQOut.allNone] at hq
        · split at h2
          · rw [← h2] at hq
            exact (Option.some.inj hq).symm
          · rw [← h2] at hq
            simp [GQOut.allNone] at hq
    · rw [← h2] at hq
      simp [GQOut.allNone] at hq
  · exact absurd hp (by simp)

theorem parseMQ_question (data : List Char) (out : MQOut) (q : List Char)
    (hp : parseMultipleResponse data = some out) (hq : out.question = some q) :
    q = fixQuestionLazy (rawQuestion data) := by
  simp only [parseMultipleResponse] at hp
  split at hp
  · split at hp
    · exact absurd hp (by simp)
    · split at hp
      · have h2 := Option.some.inj hp
        rw [← h2] at hq
        exact (Option.some.inj hq).symm
      · exact absurd hp (by simp)
  · exact absurd hp (by simp)

/-- Claim C7 is corrected by this theorem: when the extracted question
substring contains a `'?'`, `generate_question` and
`generate_question_from_api` truncate it with the greedy regex `.*\?` — the
prefix of the first `'?'`-containing line through its LAST `'?'` — so text
between the first and last `'?'` is kept and only what follows the last
`'?'` is discarded; only `generate_multiple_question` (lazy `.*?\?`)
truncates at the first `'?'`. -/
theorem claim_C7 :
    (∀ a b c : List Char, '?' ∉ a → '\n' ∉ a → '?' ∉ b → '\n' ∉ b → '?' ∉ c →
      fixQuestionGreedy (a ++ '?' :: (b ++ '?' :: c)) = a ++ '?' :: (b ++ ['?']) ∧
      fixQuestionLazy (a ++ '?' :: (b ++ '?' :: c)) = a ++ ['?']) ∧
    (∀ data out q, parseQuestionResponse data = some out → out.question = some q →
      q = fixQuestionGreedy (rawQuestion data)) ∧
    (∀ data, questionFromApi data = fixQuestionGreedy (rawQuestion data)) ∧
    (∀ data out q, parseMultipleResponse data = some out → out.question = some q →
      q = fixQuestionLazy (rawQuestion data)) := by
  refine ⟨?_, parseGQ_question, fun _ => rfl, parseMQ_question⟩
  intro a b c h1 h2 h3 h4 h5
  exact fixQuestion_two_marks a b c ⟨h1, h2⟩ ⟨h3, h4⟩ h5

/-- Response whose question substring is `A? B? C`. -/
def c7data : List Char :=
  "Generated Question: A? B? C Probability: Yes: 60, No: 40 Market Resolution Date: 2026-01-15".toList

/-- Valid sports multi-option response. -/
def c7sports : List Char :=
  "Generated Question: Who wins the cup? It is open. Probability: Real Madrid: 60, Bayern: 40 Event Description: A fine contest.".toList

/-- Claim C7, counterexample to the claim as stated: the extracted substring
is `A? B? C`, whose prefix ending at the first `'?'` is `A?`, yet
`generate_question` returns `A? B?` (everything after the first `'?'` is not
discarded). -/
theorem claim_C7_counterexample :
    parseQuestionResponse c7data =
      some ⟨some ("A? B?".toList), some (ProbVal.binary 60 40),
        some ("2026-01-15".toList)⟩ ∧
    rawQuestion c7data = "A? B? C".toList ∧
    takeToFirstQ (rawQuestion c7data) = "A?".toList ∧
    ("A? B?".toList : List Char) ≠ "A?".toList := by
  refine ⟨?_, ?_, ?_, ?_⟩ <;> decide

/-- Claim C7 witness: the greedy/lazy characterization on a concrete
substring with two question marks, and the three extraction paths on
concrete responses. -/
theorem claim_C7_witness :
    (fixQuestionGreedy
        ("Will X win".toList ++ '?' :: (" Or Y".toList ++ '?' :: " soon".toList)) =
        "Will X win".toList ++ '?' :: (" Or Y".toList ++ ['?']) ∧
      fixQuestionLazy
        ("Will X win".toList ++ '?' :: (" Or Y".toList ++ '?' :: " soon".toList)) =
        "Will X win".toList ++ ['?']) ∧
    "A? B?".toList = fixQuestionGreedy (rawQuestion c7data) ∧
    questionFromApi c7data = fixQuestionGreedy (rawQuestion c7data) ∧
    "Who wins the cup?".toList = fixQuestionLazy (rawQuestion c7sports) :=
  ⟨claim_C7.1 ("Will X win".toList) (" Or Y".toList) (" soon".toList)
      (by decide) (by decide) (by decide) (by decide) (by decide),
    claim_C7.2.1 c7data
      ⟨some ("A? B?".toList), some (ProbVal.binary 60 40), some ("2026-01-15".toList)⟩
      ("A? B?".toList) (by decide) rfl,
    claim_C7.2.2.1 c7data,
    claim_C7.2.2.2 c7sports
      ⟨some ("Who wins the cup?".toList),
        some [("Real Madrid".toList, 60), ("Bayern".toList, 40)], none,
        some ("A fine contest.".toList)⟩
      ("Who wins the cup?".toList) (by decide) rfl⟩

/-- Claim C3 is corrected by this theorem: the placeholder rejection exists
only in the sports `generate_multiple_question` path — there, any extracted
option set containing a placeholder name (case-insensitively `field`,
`any other team`, `others`, `other team`) fails validation and the attempt
retries; the scraped-content `generate_question` multi-option path has no
placeholder check and returns the option set whenever the values sum to 100
and are in range, placeholder names included. -/
theorem claim_C3 :
    (∀ data, containsSub data gqMarker = true →
      (∃ p ∈ optionsMQ data, toLowerL p.1 ∈ placeholderNames) →
      parseMultipleResponse data = none) ∧
    (∀ data, containsSub data gqMarker = true → containsSub data mrdMarker = true →
      containsSub data probMarker = true →
      (searchKeyNum yesKey (probSectionGQ data) = none ∨
        searchKeyNum noKey (probSectionGQ data) = none) →
      optionsGQ data ≠ [] →
      ((optionsGQ data).map Prod.snd).sum = 100 →
      (∀ p ∈ optionsGQ data, p.2 ≤ 100) →
      parseQuestionResponse data =
        some ⟨some (fixQuestionGreedy (rawQuestion data)),
          some (ProbVal.multi (optionsGQ data)), some (endDateGQ data)⟩) := by
  constructor
  · intro data hm hex
    obtain ⟨p, hp, hpl⟩ := hex
    have hne : (optionsMQ data).isEmpty = false := by
      cases h0 : optionsMQ data with
      | nil => rw [h0] at hp; exact absurd hp (List.not_mem_nil p)
      | cons x t => rfl
    have hnf : (optionsMQ data).all
        (fun q => !(placeholderNames.contains (toLowerL q.1))) = false := by
      rw [List.all_eq_false]
      refine ⟨p, hp, ?_⟩
      simp [List.contains, List.elem_eq_mem, hpl]
    simp only [parseMultipleResponse, hm, hne, hnf, Bool.and_false, if_true, if_false,
      Bool.false_eq_true, if_neg]
  · intro data hgq hmrd hprob hbin hne hsum hall
    obtain ⟨i, hi⟩ := Option.isSome_iff_exists.mp (by simpa [containsSub] using hprob)
    have hne' : (optionsGQ data).isEmpty = false := by
      cases h0 : optionsGQ data with
      | nil => exact absurd h0 hne
      | cons x t => rfl
    have hall' : (optionsGQ data).all
        (fun p => decide (0 ≤ p.2) && decide (p.2 ≤ 100)) = true := by
      rw [List.all_eq_true]
      intro p hp
      simp [hall p hp]
    rcases hbin with hb | hb
    · simp [parseQuestionResponse, hgq, hmrd, hi, hb, hne', hsum, hall']
      intro x y hxy hgt
      exact absurd (hall (x, y) hxy) (not_le.mpr hgt)
    · cases hy : searchKeyNum yesKey (probSectionGQ data) with
      | none =>
          simp [parseQuestionResponse, hgq, hmrd, hi, hy, hne', hsum, hall']
          intro x y hxy hgt
          exact absurd (hall (x, y) hxy) (not_le.mpr hgt)
      | some y =>
          simp [parseQuestionResponse, hgq, hmrd, hi, hy, hb, hne', hsum, hall']
          intro x y hxy hgt
          exact absurd (hall (x, y) hxy) (not_le.mpr hgt)

/-- Response accepted by `generate_question` though an option is the
placeholder `Other Team`. -/
def c3data : List Char :=
  "Generated Question: Who wins? Probability: Other Team: 20, Alpha: 80 Market Resolution Date: 2025-12-01".toList

/-- Sports response whose option set contains the placeholder `Other Team`. -/
def c3sports : List Char :=
  "Generated Question: Who wins the cup? Probability: Other Team: 60, Bayern: 40 Event Description: A fine contest.".toList

/-- Claim C3, counterexample to the claim as stated: a multi-option section
containing the placeholder `Other Team` and summing to 100 passes the
scraped-content `generate_question` extraction — it is returned, not
rejected, so the placeholder rejection does not hold in both paths. -/
theorem claim_C3_counterexample :
    parseQuestionResponse c3data =
      some ⟨some ("Who wins?".toList),
        some (ProbVal.multi [("Other Team".toList, 20), ("Alpha".toList, 80)]),
        some ("2025-12-01".toList)⟩ ∧
    toLowerL ("Other Team".toList) ∈ placeholderNames ∧
    20 + 80 = 100 := by
  refine ⟨?_, ?_, rfl⟩ <;> decide

/-- Claim C3 witness: the sports path rejects a concrete placeholder option
set while the scraped-content path accepts one. -/
theorem claim_C3_witness :
    parseMultipleResponse c3sports = none ∧
    parseQuestionResponse c3data =
      some ⟨some (fixQuestionGreedy (rawQuestion c3data)),
        some (ProbVal.multi (optionsGQ c3data)), some (endDateGQ c3data)⟩ :=
  ⟨claim_C3.1 c3sports (by decide)
      ⟨("Other Team".toList, 60), by decide, by decide⟩,
    claim_C3.2 c3data (by decide) (by decide) (by decide) (Or.inl (by decide))
      (by decide) (by decide) (by decide)⟩

theorem sameLetter_cases {c lo up : Char} (h : sameLetter c lo up = true) :
    c = lo ∨ c = up := by
  simpa [sameLetter, decide_eq_true_iff] using h

theorem space_not_word {c : Char} (h : spaceChar c = true) : wordChar c = false := by
  simp only [spaceChar, Bool.or_eq_true, decide_eq_true_iff] at h
  rcases h with ((((h | h) | h) | h) | h) | h <;> subst h <;> decide

theorem sameLetterR_word {c : Char} (h : sameLetter c 'r' 'R' = true) :
    wordChar c = true := by
  rcases sameLetter_cases h with h | h <;> subst h <;> decide

theorem standAt_false_head {c : Char} (l : List Char)
    (h : sameLetter c 'r' 'R' = false) : standaloneRulesAt (c :: l) = false := by
  rcases l with _ | ⟨c2, l⟩
  · rfl
  rcases l with _ | ⟨c3, l⟩
  · rfl
  rcases l with _ | ⟨c4, l⟩
  · rfl
  rcases l with _ | ⟨c5, l⟩
  · rfl
  simp [standaloneRulesAt, h]

theorem standAt_decomp {l : List Char} (h : standaloneRulesAt l = true) :
    ∃ c1 c2 c3 c4 c5 rest, l = c1 :: c2 :: c3 :: c4 :: c5 :: rest ∧
      sameLetter c1 'r' 'R' = true ∧ sameLetter c2 'u' 'U' = true ∧
      sameLetter c3 'l' 'L' = true ∧ sameLetter c4 'e' 'E' = true ∧
      sameLetter c5 's' 'S' = true ∧
      (match rest.head? with
       | some c => !wordChar c
       | none => true) = true := by
  rcases l with _ | ⟨c1, l⟩; · exact absurd h (by simp [standaloneRulesAt])
  rcases l with _ | ⟨c2, l⟩; · exact absurd h (by simp [standaloneRulesAt])
  rcases l with _ | ⟨c3, l⟩; · exact absurd h (by simp [standaloneRulesAt])
  rcases l with _ | ⟨c4, l⟩; · exact absurd h (by simp [standaloneRulesAt])
  rcases l with _ | ⟨c5, rest⟩; · exact absurd h (by simp [standaloneRulesAt])
  simp only [standaloneRulesAt, Bool.and_eq_true] at h
  exact ⟨c1, c2, c3, c4, c5, rest, rfl, h.1.1.1.1.1, h.1.1.1.1.2, h.1.1.1.2, h.1.1.2,
    h.1.2, h.2⟩

theorem scan_true_cons (c : Char) (t : List Char) :
    containsStandaloneRulesAux true (c :: t) = containsStandaloneRulesAux (wordChar c) t := by
  simp [containsStandaloneRulesAux]

theorem scan_false_cons (c : Char) (t : List Char) :
    containsStandaloneRulesAux false (c :: t) =
      (standaloneRulesAt (c :: t) || containsStandaloneRulesAux (wordChar c) t) := by
  simp [containsStandaloneRulesAux]

theorem wbAfter_suffix {t rem : List Char} {lw : Bool}
    (h : wbAfter t = some (rem, lw)) : rem <:+ t := by
  rcases t with _ | ⟨c, t'⟩
  · simp only [wbAfter, List.head?_nil] at h
    have h2 := Option.some.inj h
    rw [Prod.mk.injEq] at h2
    rw [← h2.1]
  · simp only [wbAfter, List.head?_cons] at h
    split at h
    · exact absurd h (by simp)
    · have h2 := Option.some.inj h
      rw [Prod.mk.injEq] at h2
      rw [← h2.1]
      have s1 : (c :: t').dropWhile spaceChar <:+ c :: t' := List.dropWhile_suffix _
      split
      case h_1 u heq =>
        calc List.dropWhile spaceChar u <:+ u := List.dropWhile_suffix _
          _ <:+ ':' :: u := List.suffix_cons ':' u
          _ <:+ c :: t' := heq ▸ s1
      case h_2 => exact s1

theorem wbAfter_none {t : List Char} (h : wbAfter t = none) :
    ∃ c t', t = c :: t' ∧ wordChar c = true := by
  rcases t with _ | ⟨c, t'⟩
  · exact absurd h (by simp [wbAfter])
  · simp only [wbAfter, List.head?_cons] at h
    split at h
    · exact ⟨c, t', rfl, by assumption⟩
    · exact absurd h (by simp)

theorem wbAfter_lw {t rem : List Char}
    (h : wbAfter t = some (rem, true)) :
    rem = [] ∨ ∃ c r', rem = c :: r' ∧ wordChar c = false := by
  have hsuf := wbAfter_suffix h
  rcases t with _ | ⟨c, t'⟩
  · exact Or.inl (List.suffix_nil.mp hsuf)
  · simp only [wbAfter, List.head?_cons] at h
    split at h
    · exact absurd h (by simp)
    · rename_i hw
      have h2 := Option.some.inj h
      rw [Prod.mk.injEq] at h2
      have hlen : rem.length = (c :: t').length := by
        rw [← h2.1]
        exact beq_iff_eq.mp h2.2
      right
      exact ⟨c, t', hsuf.eq_of_length hlen, by simpa using hw⟩

theorem guard_ge4 {s : List Char} (h : (toLowerL (s.take 4) == "rule".toList) = true) :
    4 ≤ s.length := by
  have heq : toLowerL (s.take 4) = "rule".toList := beq_iff_eq.mp h
  have hlen : (s.take 4).length = 4 := by
    have := congrArg List.length heq
    simpa [toLowerL] using this
  simp only [List.length_take] at hlen
  omega

theorem matchWbRules_suffix {s rem : List Char} {lw : Bool}
    (h : matchWbRules s = some (rem, lw)) : rem <:+ s.drop 4 ∧ 4 ≤ s.length := by
  simp only [matchWbRules] at h
  split at h
  case isFalse => exact absurd h (by simp)
  case isTrue hg =>
    refine ⟨?_, guard_ge4 hg⟩
    split at h
    case h_2 => exact wbAfter_suffix h
    case h_1 c hc =>
      split at h
      case isFalse => exact wbAfter_suffix h
      case isTrue =>
        split at h
        case h_2 => exact wbAfter_suffix h
        case h_1 x hx =>
          have hx2 : wbAfter ((s.drop 4).drop 1) = some (rem, lw) := by
            rw [hx]; exact h
          exact (wbAfter_suffix hx2).trans (List.drop_suffix 1 (s.drop 4))

theorem matchWbRules_len {s rem : List Char} {lw : Bool}
    (h : matchWbRules s = some (rem, lw)) : rem.length + 4 ≤ s.length := by
  obtain ⟨hs, h4⟩ := matchWbRules_suffix h
  have := hs.length_le
  simp only [List.length_drop] at this
  omega

theorem matchWbRules_mem {s rem : List Char} {lw : Bool}
    (h : matchWbRules s = some (rem, lw)) : ∀ c, c ∈ rem → c ∈ s := by
  intro c hc
  exact List.drop_subset 4 s ((matchWbRules_suffix h).1.subset hc)

theorem matchWbRules_lw {s rem : List Char}
    (h : matchWbRules s = some (rem, true)) :
    rem = [] ∨ ∃ c r', rem = c :: r' ∧ wordChar c = false := by
  simp only [matchWbRules] at h
  split at h
  case isFalse => exact absurd h (by simp)
  case isTrue hg =>
    split at h
    case h_2 => exact wbAfter_lw h
    case h_1 c hc =>
      split at h
      case isFalse => exact wbAfter_lw h
      case isTrue =>
        split at h
        case h_2 => exact wbAfter_lw h
        case h_1 x hx =>
          have hx2 : wbAfter ((s.drop 4).drop 1) = some (rem, true) := by
            rw [hx]; exact h
          exact wbAfter_lw hx2

theorem matchWbRules_none_rules {c1 c2 c3 c4 c5 : Char} {rest : List Char}
    (h1 : sameLetter c1 'r' 'R' = true) (h2 : sameLetter c2 'u' 'U' = true)
    (h3 : sameLetter c3 'l' 'L' = true) (h4 : sameLetter c4 'e' 'E' = true)
    (h5 : sameLetter c5 's' 'S' = true)
    (hm : matchWbRules (c1 :: c2 :: c3 :: c4 :: c5 :: rest) = none) :
    ∃ h t', rest = h :: t' ∧ wordChar h = true := by
  have hg : (toLowerL ((c1 :: c2 :: c3 :: c4 :: c5 :: rest).take 4) == "rule".toList) = true := by
    have ht : (c1 :: c2 :: c3 :: c4 :: c5 :: rest).take 4 = [c1, c2, c3, c4] := rfl
    rw [ht]
    rcases sameLetter_cases h1 with rfl | rfl <;>
      rcases sameLetter_cases h2 with rfl | rfl <;>
      rcases sameLetter_cases h3 with rfl | rfl <;>
      rcases sameLetter_cases h4 with rfl | rfl <;> decide
  have hlow : c5.toLower = 's' := by
    rcases sameLetter_cases h5 with rfl | rfl <;> decide
  simp only [matchWbRules, hg, if_true, List.drop_succ_cons, List.drop_zero,
    List.head?_cons, hlow, if_pos] at hm
  cases hw : wbAfter rest with
  | some x => rw [hw] at hm; exact absurd hm (by simp)
  | none => exact wbAfter_none hw

theorem sameLetter_word {c lo up : Char} (h : sameLetter c lo up = true)
    (hlo : wordChar lo = true) (hup : wordChar up = true) : wordChar c = true := by
  rcases sameLetter_cases h with rfl | rfl <;> assumption

theorem removeWb_true_cons_inv {f : Nat} {t : List Char} {x : Char} {X : List Char}
    (h : removeWbRulesAux f true t = x :: X) :
    ∃ t', t = x :: t' ∧ X = removeWbRulesAux (f - 1) (wordChar x) t' := by
  cases f with
  | zero => exact ⟨X, h, rfl⟩
  | succ f1 =>
      cases t with
      | nil => exact absurd h (by simp [removeWbRulesAux])
      | cons c t' =>
          have h2 : c :: removeWbRulesAux f1 (wordChar c) t' = x :: X := by
            simpa [removeWbRulesAux] using h
          injection h2 with hx hX
          subst hx
          exact ⟨t', rfl, hX.symm⟩

theorem noStandalone_removeWb :
    ∀ fuel s pw, s.length < fuel →
      containsStandaloneRulesAux pw (removeWbRulesAux fuel pw s) = false ∧
      (pw = false → standaloneRulesAt (removeWbRulesAux fuel pw s) = false) := by
  intro fuel
  induction fuel using Nat.strong_induction_on with
  | _ fuel ih =>
    intro s pw hlen
    cases fuel with
    | zero => omega
    | succ f =>
      cases s with
      | nil =>
          refine ⟨by simp [removeWbRulesAux, containsStandaloneRulesAux], fun _ => ?_⟩
          simp [removeWbRulesAux, standaloneRulesAt]
      | cons c t =>
        have hlt : t.length < f := by
          simp only [List.length_cons] at hlen
          omega
        cases hpw : pw with
        | true =>
            have hout : removeWbRulesAux (f + 1) true (c :: t) =
                c :: removeWbRulesAux f (wordChar c) t := by
              simp [removeWbRulesAux]
            refine ⟨?_, fun hf => absurd hf (by simp)⟩
            rw [hout, scan_true_cons]
            exact (ih f (by omega) t (wordChar c) hlt).1
        | false =>
          cases hm : matchWbRules (c :: t) with
          | some p =>
              obtain ⟨rem, lw⟩ := p
              have hout : removeWbRulesAux (f + 1) false (c :: t) =
                  removeWbRulesAux f lw rem := by
                simp [removeWbRulesAux, hm]
              have hremlen : rem.length < f := by
                have hc := matchWbRules_len hm
                simp only [List.length_cons] at hc
                omega
              cases lw with
              | false =>
                  refine ⟨?_, fun _ => ?_⟩
                  · rw [hout]; exact (ih f (by omega) rem false hremlen).1
                  · rw [hout]; exact (ih f (by omega) rem false hremlen).2 rfl
              | true =>
                  rcases matchWbRules_lw hm with hrem | ⟨h0, r', hrem, hwh⟩
                  · subst hrem
                    have hout2 : removeWbRulesAux f true [] = [] := by
                      cases f <;> rfl
                    refine ⟨?_, fun _ => ?_⟩ <;> rw [hout, hout2] <;> rfl
                  · subst hrem
                    have hg : ∃ g, f = g + 1 := by
                      refine ⟨f - 1, ?_⟩
                      simp only [List.length_cons] at hremlen
                      omega
                    obtain ⟨g, rfl⟩ := hg
                    have hout2 : removeWbRulesAux (g + 1) true (h0 :: r') =
                        h0 :: removeWbRulesAux g (wordChar h0) r' := by
                      simp [removeWbRulesAux]
                    have hsl : sameLetter h0 'r' 'R' = false := by
                      cases hsl : sameLetter h0 'r' 'R' with
                      | false => rfl
                      | true => exact absurd (sameLetterR_word hsl) (by simp [hwh])
                    have hstand : standaloneRulesAt
                        (h0 :: removeWbRulesAux g (wordChar h0) r') = false :=
                      standAt_false_head _ hsl
                    refine ⟨?_, fun _ => ?_⟩
                    · rw [hout, hout2, scan_false_cons, hstand, hwh]
                      have hr'len : r'.length < g := by
                        simp only [List.length_cons] at hremlen
                        omega
                      simp [(ih g (by omega) r' false hr'len).1]
                    · rw [hout, hout2]
                      exact hstand
          | none =>
              have hout : removeWbRulesAux (f + 1) false (c :: t) =
                  c :: removeWbRulesAux f (wordChar c) t := by
                simp [removeWbRulesAux, hm]
              have hii : standaloneRulesAt (c :: removeWbRulesAux f (wordChar c) t) = false := by
                cases hst : standaloneRulesAt (c :: removeWbRulesAux f (wordChar c) t) with
                | false => rfl
                | true =>
                    exfalso
                    obtain ⟨c1, c2, c3, c4, c5, rest, heq, g1, g2, g3, g4, g5, gb⟩ :=
                      standAt_decomp hst
                    injection heq with hc heq2
                    subst hc
                    have hwc : wordChar c = true := sameLetterR_word g1
                    rw [hwc] at heq2
                    obtain ⟨t1, rfl, hX1⟩ := removeWb_true_cons_inv heq2
                    have hw2 : wordChar c2 = true := sameLetter_word g2 (by decide) (by decide)
                    rw [hw2] at hX1
                    obtain ⟨t2, rfl, hX2⟩ := removeWb_true_cons_inv hX1.symm
                    have hw3 : wordChar c3 = true := sameLetter_word g3 (by decide) (by decide)
                    rw [hw3] at hX2
                    obtain ⟨t3, rfl, hX3⟩ := removeWb_true_cons_inv hX2.symm
                    have hw4 : wordChar c4 = true := sameLetter_word g4 (by decide) (by decide)
                    rw [hw4] at hX3
                    obtain ⟨t4, rfl, hX4⟩ := removeWb_true_cons_inv hX3.symm
                    have hw5 : wordChar c5 = true := sameLetter_word g5 (by decide) (by decide)
                    rw [hw5] at hX4
                    obtain ⟨h6, t5, rfl, hw6⟩ := matchWbRules_none_rules g1 g2 g3 g4 g5 hm
                    have hhead : rest.head? = some h6 := by
                      rw [hX4]
                      cases hfg : (f - 1 - 1 - 1 - 1) with
                      | zero => rfl
                      | succ g2' => simp [removeWbRulesAux]
                    rw [hhead] at gb
                    simp [hw6] at gb
              refine ⟨?_, fun _ => ?_⟩
              · rw [hout, scan_false_cons, hii]
                simp [(ih f (by omega) t (wordChar c) hlt).1]
              · rw [hout]
                exact hii

theorem strip_subset (s : List Char) : ∀ c ∈ strip s, c ∈ s := by
  intro c hc
  unfold strip at hc
  rw [List.mem_reverse] at hc
  have h1 := (List.dropWhile_suffix spaceChar).subset hc
  rw [List.mem_reverse] at h1
  exact (List.dropWhile_suffix spaceChar).subset h1

theorem removeBoldRulesAux_no_star :
    ∀ fuel s, '*' ∉ s → removeBoldRulesAux fuel s = s := by
  intro fuel
  induction fuel with
  | zero => intro s _; rfl
  | succ f ih =>
      intro s hns
      cases s with
      | nil => rfl
      | cons c t =>
          have hc : c ≠ '*' := fun h => hns (h ▸ List.mem_cons_self c t)
          have hm : matchBoldRules (c :: t) = none := by
            unfold matchBoldRules
            split
            case h_1 r0 heq =>
              injection heq with h1 _
              exact absurd h1 hc
            case h_2 => rfl
          have ht : '*' ∉ t := fun h => hns (List.mem_cons_of_mem c h)
          simp [removeBoldRulesAux, hm, ih t ht]

theorem removeDoubleStars_no_star :
    ∀ s : List Char, '*' ∉ s → removeDoubleStars s = s := by
  intro s
  induction s with
  | nil => intro _; rfl
  | cons c t ih =>
      intro hns
      have hc : c ≠ '*' := fun h => hns (h ▸ List.mem_cons_self c t)
      have ht : '*' ∉ t := fun h => hns (List.mem_cons_of_mem c h)
      have he : removeDoubleStars (c :: t) = c :: removeDoubleStars t := by
        rw [removeDoubleStars.eq_def]
        split
        case h_1 t0 heq =>
          injection heq with h1 _
          exact absurd h1 hc
        case h_2 c0 t0 hne heq =>
          injection heq with h1 h2
          rw [h1, h2]
        case h_3 heq => exact absurd heq.symm (by simp)
      rw [he, ih ht]

theorem mem_removeWbRulesAux :
    ∀ fuel pw s c, c ∈ removeWbRulesAux fuel pw s → c ∈ s := by
  intro fuel
  induction fuel with
  | zero => intro pw s c h; exact h
  | succ f ih =>
      intro pw s c h
      cases s with
      | nil => simp [removeWbRulesAux] at h
      | cons x t =>
          cases hpw : pw with
          | true =>
              rw [hpw] at h
              simp only [removeWbRulesAux, Bool.not_true, Bool.false_eq_true,
                if_false] at h
              rcases List.mem_cons.mp h with rfl | h2
              · exact List.mem_cons_self _ _
              · exact List.mem_cons_of_mem x (ih (wordChar x) t c h2)
          | false =>
              rw [hpw] at h
              cases hm : matchWbRules (x :: t) with
              | some p =>
                  obtain ⟨rem, lw⟩ := p
                  rw [show removeWbRulesAux (f + 1) false (x :: t) =
                      removeWbRulesAux f lw rem from by simp [removeWbRulesAux, hm]] at h
                  exact matchWbRules_mem hm c (ih lw rem c h)
              | none =>
                  rw [show removeWbRulesAux (f + 1) false (x :: t) =
                      x :: removeWbRulesAux f (wordChar x) t from by
                    simp [removeWbRulesAux, hm]] at h
                  rcases List.mem_cons.mp h with rfl | h2
                  · exact List.mem_cons_self _ _
                  · exact List.mem_cons_of_mem x (ih (wordChar x) t c h2)

theorem spaceChar_not_sameLetterR {c : Char} (h : spaceChar c = true) :
    sameLetter c 'r' 'R' = false := by
  cases hsl : sameLetter c 'r' 'R' with
  | false => rfl
  | true =>
      rcases sameLetter_cases hsl with rfl | rfl <;> exact absurd h (by decide)

theorem standAt_append (l w : List Char) (hl : standaloneRulesAt l = true)
    (hw : ∀ x ∈ w, spaceChar x = true) : standaloneRulesAt (l ++ w) = true := by
  obtain ⟨c1, c2, c3, c4, c5, rest, rfl, g1, g2, g3, g4, g5, gb⟩ := standAt_decomp hl
  simp only [List.cons_append, standaloneRulesAt, g1, g2, g3, g4, g5, Bool.true_and]
  cases rest with
  | cons y ys => simpa using gb
  | nil =>
      simp only [List.nil_append]
      cases w with
      | nil => rfl
      | cons z zs =>
          have := space_not_word (hw z (List.mem_cons_self z zs))
          simp [this]

theorem scan_append_spaces (u w : List Char) (hw : ∀ x ∈ w, spaceChar x = true) :
    ∀ pw, containsStandaloneRulesAux pw u = true →
      containsStandaloneRulesAux pw (u ++ w) = true := by
  induction u with
  | nil => intro pw h; exact absurd h (by simp [containsStandaloneRulesAux])
  | cons c u' ih =>
      intro pw h
      simp only [containsStandaloneRulesAux, Bool.or_eq_true, Bool.and_eq_true] at h
      rcases h with ⟨hpw, hst⟩ | h
      · have h2 : standaloneRulesAt (c :: (u' ++ w)) = true := by
          have h3 := standAt_append (c :: u') w hst hw
          simpa [List.cons_append] using h3
        rw [List.cons_append]
        show ((!pw && standaloneRulesAt (c :: (u' ++ w))) ||
          containsStandaloneRulesAux (wordChar c) (u' ++ w)) = true
        rw [hpw, h2]
        rfl
      · have h2 := ih (wordChar c) h
        rw [List.cons_append]
        show ((!pw && standaloneRulesAt (c :: (u' ++ w))) ||
          containsStandaloneRulesAux (wordChar c) (u' ++ w)) = true
        rw [h2, Bool.or_true]

theorem scan_cons_space (x : Char) (u : List Char) (hx : spaceChar x = true) :
    containsStandaloneRulesAux false (x :: u) = containsStandaloneRulesAux false u := by
  have h1 : standaloneRulesAt (x :: u) = false := standAt_false_head u (spaceChar_not_sameLetterR hx)
  have h2 : wordChar x = false := space_not_word hx
  simp [containsStandaloneRulesAux, h1, h2]

theorem scan_prepend_spaces (sp u : List Char) (hsp : ∀ x ∈ sp, spaceChar x = true) :
    containsStandaloneRulesAux false (sp ++ u) = containsStandaloneRulesAux false u := by
  induction sp with
  | nil => rfl
  | cons x sp' ih =>
      have hx := hsp x (List.mem_cons_self x sp')
      have h' : ∀ y ∈ sp', spaceChar y = true := fun y hy => hsp y (List.mem_cons_of_mem x hy)
      rw [List.cons_append, scan_cons_space x (sp' ++ u) hx, ih h']

theorem strip_preserve (t : List Char)
    (h : containsStandaloneRulesAux false t = false) :
    containsStandaloneRulesAux false (strip t) = false := by
  cases hs : containsStandaloneRulesAux false (strip t) with
  | false => rfl
  | true =>
      exfalso
      have hD : strip t ++ (((t.dropWhile spaceChar).reverse.takeWhile spaceChar)).reverse =
          t.dropWhile spaceChar := by
        unfold strip
        rw [← List.reverse_append, List.takeWhile_append_dropWhile, List.reverse_reverse]
      have htr : ∀ x ∈ (((t.dropWhile spaceChar).reverse.takeWhile spaceChar)).reverse,
          spaceChar x = true := by
        intro x hx
        rw [List.mem_reverse] at hx
        exact List.mem_takeWhile_imp hx
      have h1 := scan_append_spaces (strip t) _ htr false hs
      rw [hD] at h1
      have hlead : ∀ x ∈ t.takeWhile spaceChar, spaceChar x = true :=
        fun x hx => List.mem_takeWhile_imp hx
      have h2 : containsStandaloneRulesAux false t = true := by
        have h3 := scan_prepend_spaces (t.takeWhile spaceChar) (t.dropWhile spaceChar) hlead
        rw [List.takeWhile_append_dropWhile] at h3
        rw [h3]
        exact h1
      rw [h] at h2
      exact Bool.noConfusion h2

theorem stripRules_no_standalone (r : List Char) (h : '*' ∉ r) :
    containsStandaloneRules (stripRulesText r) = false := by
  have h0 : '*' ∉ strip r := fun hm => h (strip_subset r '*' hm)
  have e1 : removeBoldRules (strip r) = strip r :=
    removeBoldRulesAux_no_star _ (strip r) h0
  have h3 : '*' ∉ removeWbRules (strip r) := fun hm =>
    h0 (mem_removeWbRulesAux ((strip r).length + 1) false (strip r) '*' hm)
  have e2 : removeDoubleStars (removeWbRules (strip r)) = removeWbRules (strip r) :=
    removeDoubleStars_no_star _ h3
  have hscan : containsStandaloneRulesAux false (removeWbRules (strip r)) = false :=
    (noStandalone_removeWb ((strip r).length + 1) (strip r) false (by omega)).1
  show containsStandaloneRulesAux false (stripRulesText r) = false
  unfold stripRulesText
  rw [e1]
  show containsStandaloneRulesAux false
    (strip (strip (removeDoubleStars (removeWbRules (strip r))))) = false
  rw [e2]
  exact strip_preserve _ (strip_preserve _ hscan)

/-- Claim C6 is corrected by this theorem: `generate_rules` applies the
three substitutions in order and returns the stripped text of the first
non-raising attempt — but when stripping leaves an empty string the function
returns `None` immediately for the whole call, consuming only that one
attempt, instead of retrying (only exceptions drive the retry loop); and
because the blanket `**` removal runs after the word-boundary removal,
emphasis markers inside the word can reassemble a standalone `rules` in the
output, so the no-`rules` guarantee holds only for responses containing no
`*` (second conjunct). -/
theorem claim_C6 :
    (∀ r rest, runGenerateRules (RulesAttempt.response r :: rest) =
      ((if stripRulesText r = [] then none else some (stripRulesText r)), 1)) ∧
    (∀ r : List Char, '*' ∉ r → containsStandaloneRules (stripRulesText r) = false) := by
  constructor
  · intro r rest
    by_cases h : stripRulesText r = []
    · simp [runGenerateRules, stepGenerateRules, h]
    · simp [runGenerateRules, stepGenerateRules, h, List.isEmpty_iff]
  · exact fun r h => stripRules_no_standalone r h

/-- Claim C6, counterexample to the claim as stated: the response
`ru**les resolve by X` strips to `rules resolve by X` — a returned non-`None`
text containing a standalone `rules` — and a first attempt that strips to
empty (`**Rules**`) makes the call return `None` after that single attempt
even though the second scheduled attempt would have produced a non-empty
rules text, so the attempt is not retried. -/
theorem claim_C6_counterexample :
    stripRulesText ("ru**les resolve by X".toList) = "rules resolve by X".toList ∧
    containsStandaloneRules ("rules resolve by X".toList) = true ∧
    stepGenerateRules (RulesAttempt.response ("ru**les resolve by X".toList)) =
      some (some ("rules resolve by X".toList)) ∧
    runGenerateRules [RulesAttempt.response ("**Rules**".toList),
      RulesAttempt.response ("Resolution by official sources.".toList)] = (none, 1) ∧
    stepGenerateRules (RulesAttempt.response ("Resolution by official sources.".toList)) =
      some (some ("Resolution by official sources.".toList)) := by
  refine ⟨?_, ?_, ?_, ?_, ?_⟩ <;> decide

/-- Claim C6 witness: the amended characterization applied to a concrete
empty-stripping first attempt, and the no-standalone-`rules` guarantee
applied to a concrete `*`-free response. -/
theorem claim_C6_witness :
    runGenerateRules [RulesAttempt.response ("**Rules**".toList)] = (none, 1) ∧
    containsStandaloneRules
      (stripRulesText ("Rules: resolve by official sources.".toList)) = false :=
  ⟨(claim_C6.1 ("**Rules**".toList) []).trans (by decide),
    claim_C6.2 ("Rules: resolve by official sources.".toList) (by decide)⟩

end EventGen
